import Mathlib

/-!
Verification development for the somber batched self-organizing map
(`somber/som.py`).

The Python arrays are embedded as lists of lists over a linearly ordered
field `α` (exact arithmetic in place of IEEE floats).  Backend operations
that the source obtains from numpy/cupy and that are not field operations
(`exp`, `sqrt`) are supplied by a `Backend` record, and the random draws
(`xp.random.rand`) and shuffle outcomes (`np.random.shuffle`) are explicit
inputs of `Som.fit`.  The helper module `somber/utils.py` (`np_min`,
`resize`, `expo`, `linear`) is not part of the sources; those four
definitions are modelled from the specification and are marked as such.
-/

namespace Somber

abbrev Mat (α : Type) := List (List α)

abbrev Mat3 (α : Type) := List (List (List α))

variable {α : Type} [LinearOrderedField α]

/-- Entry `(i, j)` of a matrix, with `0` as out-of-bounds default. -/
def entry (M : Mat α) (i j : Nat) : α := (M.getD i []).getD j 0

/-- Entry `(b, i, j)` of a rank-3 array, with `0` as out-of-bounds default. -/
def entry3 (T : Mat3 α) (b i j : Nat) : α := ((T.getD b []).getD i []).getD j 0

/-- Elementwise sum of two vectors (numpy `+` on equal-shape rows). -/
def vAdd (a b : List α) : List α := List.zipWith (· + ·) a b

/-- Elementwise sum of two matrices (numpy `+` on equal-shape arrays). -/
def mAdd (a b : Mat α) : Mat α := List.zipWith vAdd a b

/-- Multiplication of a matrix by a scalar (numpy broadcast `*`). -/
def mScale (c : α) (a : Mat α) : Mat α := a.map (fun r => r.map (fun v => c * v))

/-- numpy `mean` over axis 0 of a rank-3 array: sum of the component
matrices divided by their number. -/
def mMean (l : Mat3 α) : Mat α :=
  match l with
  | [] => []
  | h :: t => mScale (1 / ((t.length + 1 : Nat) : α)) (t.foldl mAdd h)

/-- Row-major regrouping of a list into rows of `k` elements (numpy
`reshape (len / k, k)`). -/
def chunkList {β : Type} (k : Nat) (l : List β) : List (List β) :=
  (List.range (l.length / k)).map (fun i => (l.drop (i * k)).take k)

/-- Modelled from the spec: `utils.np_min` applied along axis 1 returns, for
a row of activations, the pair of the minimal value and the index of the
first position attaining it (numpy `min`/`argmin` tie-breaking). -/
def npMin : List α → α × Nat
  | [] => (0, 0)
  | [a] => (a, 0)
  | a :: b :: t =>
    let r := npMin (b :: t)
    if a ≤ r.1 then (a, 0) else (r.1, r.2 + 1)

/-- An arg-max extremum selector.  The spec explicitly allows plugging an
arg-max variant in as `min_max`; this is such a client-provided variant
(numpy `max`/`argmax` tie-breaking, first maximal position wins). -/
def argMaxRow : List α → α × Nat
  | [] => (0, 0)
  | [a] => (a, 0)
  | a :: b :: t =>
    let r := argMaxRow (b :: t)
    if r.1 ≤ a then (a, 0) else (r.1, r.2 + 1)

/-- The numeric-array backend (numpy or cupy): the two operations used by
the SOM core that are not field operations. -/
structure Backend (α : Type) where
  exp : α → α
  sqrt : α → α

/-- A schedule function as stored on the model: the library functions
`utils.expo` / `utils.linear`, or a client-supplied function.  Python
compares function objects by identity (`lrfunc == expo`), which this tagged
representation mirrors. -/
inductive SchedTag (α : Type) where
  | expo : SchedTag α
  | linear : SchedTag α
  | custom : (α → Nat → Nat → α) → SchedTag α

/-- Modelled from the spec: `utils.expo`, an exponential decay mapping
(initial value, current step, total steps) to a decayed value. -/
def expoSched (B : Backend α) (v : α) (step total : Nat) : α :=
  v * B.exp (-(step : α) / (total : α))

/-- Modelled from the spec: `utils.linear`, a linear decay mapping
(initial value, current step, total steps) to a decayed value. -/
def linearSched (v : α) (step total : Nat) : α :=
  v * ((total : α) - (step : α)) / (total : α)

/-- Evaluate a schedule function. -/
def SchedTag.eval (B : Backend α) : SchedTag α → α → Nat → Nat → α
  | .expo => expoSched B
  | .linear => linearSched
  | .custom f => f

/-- The persistence tag of a schedule function: `save` writes `'expo'` when
the stored function is `utils.expo` and `'linear'` otherwise. -/
def SchedTag.tag : SchedTag α → String
  | .expo => "expo"
  | _ => "linear"

/-- `load`'s reconstruction of a schedule function from its tag. -/
def schedOfTag (s : String) : SchedTag α :=
  if s = "expo" then .expo else .linear

/-- The scaler's division guard: the source literal `10e-6`, i.e. `1e-5`. -/
def scalerEps : α := 10 / 1000000

/-- Number of columns of a 2-D array (`X.shape[1]`). -/
def shape1 (X : Mat α) : Nat := (X.headD []).length

/-- The number of dimensions numpy infers for a list of rows: `2` for a
nonempty rectangular list of rows, `1` otherwise (an empty or ragged input
does not form a 2-D array). -/
def ndim (X : Mat α) : Nat :=
  if X.isEmpty then 1
  else if X.all (fun r => r.length = shape1 X) then 2 else 1

/-- Mean of column `j` (numpy `X.mean(0)` componentwise). -/
def colMean (X : Mat α) (j : Nat) : α :=
  (X.map (fun r => r.getD j 0)).sum / (X.length : α)

/-- Population variance of column `j`; numpy `X.std(0)` is its square
root. -/
def colVar (X : Mat α) (j : Nat) : α :=
  (X.map (fun r => (r.getD j 0 - colMean X j) ^ 2)).sum / (X.length : α)

/-- Minimum of column `j` (numpy `X.min(0)` componentwise). -/
def colMin (X : Mat α) (j : Nat) : α :=
  match X.map (fun r => r.getD j 0) with
  | [] => 0
  | a :: t => t.foldl min a

/-- Maximum of column `j` (numpy `X.max(0)` componentwise). -/
def colMax (X : Mat α) (j : Nat) : α :=
  match X.map (fun r => r.getD j 0) with
  | [] => 0
  | a :: t => t.foldl max a

/-- The mean/std feature scaler.  The source initialises `mean = 0` and
`std = 0` (scalars); the empty per-feature vectors together with the
`getD _ 0` lookup reproduce that scalar-zero broadcast. -/
structure Scaler (α : Type) where
  mean : List α
  std : List α
  is_fit : Bool

/-- A freshly constructed scaler (`Scaler.__init__`). -/
def Scaler.blank : Scaler α := ⟨[], [], false⟩

/-- `Scaler.fit`: store the per-feature mean and standard deviation and set
`is_fit`.  The standard deviation is the backend square root of the
population variance. -/
def Scaler.fitted (B : Backend α) (X : Mat α) : Scaler α :=
  ⟨(List.range (shape1 X)).map (fun j => colMean X j),
   (List.range (shape1 X)).map (fun j => B.sqrt (colVar X j)),
   true⟩

/-- `Scaler.transform`: `(X - mean) / (std + 10e-6)`, broadcasting the
per-feature vectors over the rows. -/
def Scaler.transform (sc : Scaler α) (X : Mat α) : Mat α :=
  X.map (fun r => r.enum.map
    (fun p => (p.2 - sc.mean.getD p.1 0) / (sc.std.getD p.1 0 + scalerEps)))

/-- `Scaler.inverse_transform`: `X * std + mean` (no `10e-6` term). -/
def Scaler.inverse_transform (sc : Scaler α) (X : Mat α) : Mat α :=
  X.map (fun r => r.enum.map
    (fun p => p.2 * sc.std.getD p.1 0 + sc.mean.getD p.1 0))

/-- `Scaler.fit_transform`: fit (mutating the scaler), then transform;
returns the new scaler state and the transformed data. -/
def Scaler.fit_transform (B : Backend α) (X : Mat α) : Scaler α × Mat α :=
  let sc := Scaler.fitted B X
  (sc, sc.transform X)

/-- The batched SOM model state (`Som.__init__` fields). `min_max` is the
pluggable extremum selector applied to one activation row.
`distance_grid` starts as `None`.  The grid is stored with integer entries
(the source stores them as `float32`, but every entry is an integer). -/
structure Som (α : Type) where
  sigma : α
  learning_rate : α
  map_dimensions : List Nat
  weight_dim : Nat
  weights : Mat α
  data_dim : Nat
  lrfunc : SchedTag α
  nbfunc : SchedTag α
  distance_grid : Option (List (Mat ℤ))
  min_max : List α → α × Nat
  trained : Bool
  scaler : Scaler α

/-- Largest entry of a dimension list (Python `max(map_dim)`). -/
def natListMax (l : List Nat) : Nat := l.foldl Nat.max 0

/-- `Som.__init__`: sigma defaults to `max(map_dim) / 2 + 0.01`, the weight
matrix is zero-initialised with `weight_dim = reduce(mul, map_dim, 1)`
rows, the distance grid is unset and the scaler fresh. -/
def Som.new (map_dim : List Nat) (data_dim : Nat) (learning_rate : α)
    (lrfunc nbfunc : SchedTag α) (sigma : Option α)
    (min_max : List α → α × Nat) : Som α :=
  let wd := map_dim.foldl (· * ·) 1
  { sigma := match sigma with
      | some s => s
      | none => ((natListMax map_dim : Nat) : α) / 2 + 1 / 100
    learning_rate := learning_rate
    map_dimensions := map_dim
    weight_dim := wd
    weights := List.replicate wd (List.replicate data_dim 0)
    data_dim := data_dim
    lrfunc := lrfunc
    nbfunc := nbfunc
    distance_grid := none
    min_max := min_max
    trained := false
    scaler := Scaler.blank }

/-- `Som._grid_distance`: the `(width, height)` matrix of squared grid
distances from the unit with flat index `index`, built from
`row = index // height`, `col = index % height` and
`|arange - row| ** 2` in each axis. -/
def Som.grid_distance (m : Som α) (index : Nat) : Mat ℤ :=
  let height := m.map_dimensions.getD 1 0
  let width := m.map_dimensions.getD 0 0
  let row : ℤ := ((index / height : Nat) : ℤ)
  let col : ℤ := ((index % height : Nat) : ℤ)
  (List.range width).map (fun (a : Nat) =>
    (List.range height).map (fun (b : Nat) =>
      |((a : ℤ)) - row| ^ 2 + |((b : ℤ)) - col| ^ 2))

/-- `Som._initialize_distance_grid`: one `grid_distance` block per unit.
(The source passes the batched data only to pick the array backend; the
values depend on the geometry alone.) -/
def Som.distance_grid_init (m : Som α) : List (Mat ℤ) :=
  (List.range m.weight_dim).map (fun i => m.grid_distance i)

/-- `Som._calculate_influence`: `exp(-distance_grid / (2 sigma^2))`
reshaped to `(weight_dim, weight_dim)`.  Row-major reshape of the
per-unit blocks flattens each block; the trailing broadcast axis of
length 1 is represented by the scalar entries themselves. -/
def Som.calculate_influence (B : Backend α) (m : Som α) (sigma : α) : Mat α :=
  ((m.distance_grid.getD []).map (fun g =>
    g.map (fun r => r.map (fun (d : ℤ) => B.exp (-(d : α) / (2 * sigma ^ 2)))))).map
    (fun g => g.flatten)

/-- `Som._distance_difference`: `x[:, None, :] - weights[None, :, :]`. -/
def distance_difference (x W : Mat α) : Mat3 α :=
  x.map (fun xb => W.map (fun w => List.zipWith (· - ·) xb w))

/-- `Som.distance_function`: the difference tensor together with its
Euclidean norms over the feature axis (`linalg.norm(diff, axis=2)`,
i.e. the backend square root of the sum of squares). -/
def distance_function (B : Backend α) (x W : Mat α) : Mat α × Mat3 α :=
  let diff := distance_difference x W
  (diff.map (fun bR => bR.map (fun dv => B.sqrt ((dv.map (fun v => v ^ 2)).sum))), diff)

/-- `Som.forward`: distances of a batch to the current weights. -/
def Som.forward (m : Som α) (B : Backend α) (x : Mat α) : Mat α × Mat3 α :=
  distance_function B x m.weights

/-- `Som._apply_influences`: select, for every example, the influence row
anchored at its best matching unit `min_max(activations, 1)[1]`. -/
def Som.apply_influences (m : Som α) (activations : Mat α) (influences : Mat α) : Mat α :=
  activations.map (fun r => influences.getD (m.min_max r).2 [])

/-- `Som._calculate_update`: `multiply(x, influence)`, broadcasting the
per-(example, unit) scalar over the feature axis. -/
def calculate_update (x : Mat3 α) (influence : Mat α) : Mat3 α :=
  List.zipWith (fun dm ir => List.zipWith (fun dv c => dv.map (fun v => v * c)) dm ir) x influence

/-- `Som.backward`: gather the influence rows at the BMUs, scale the
difference tensor and add the batch mean to the weights. -/
def Som.backward (m : Som α) (diff_x : Mat3 α) (influences : Mat α)
    (activation : Mat α) : Som α :=
  let influence := m.apply_influences activation influences
  let update := calculate_update diff_x influence
  { m with weights := mAdd m.weights (mMean update) }

/-- `Som._propagate`: forward then backward; returns the updated model and
the activation. -/
def Som.propagate (m : Som α) (B : Backend α) (x : Mat α) (influences : Mat α) :
    Som α × Mat α :=
  let fw := m.forward B x
  (m.backward fw.2 influences fw.1, fw.1)

/-- Modelled from the spec: `utils.resize` pads the row list with zero rows
up to the requested row count (rows of `cols` zeros) before reshaping. -/
def resizeRows (X : Mat α) (rows cols : Nat) : Mat α :=
  X.take rows ++ List.replicate (rows - X.length) (List.replicate cols 0)

/-- `Som._create_batches`: optionally shuffle (the shuffle outcome is the
explicit `shuffleFn` input), cap the batch size at the data length, pad
with zero rows to a multiple of the batch size (`ceil(n / batch_size)`
batches) and regroup. -/
def create_batches (shuffleFn : Mat α → Mat α) (X : Mat α) (batch_size : Nat)
    (shuffle_data : Bool) : Mat3 α :=
  let X1 := if shuffle_data then shuffleFn X else X
  let bs := if batch_size > X1.length then X1.length else batch_size
  let max_x := (X1.length + bs - 1) / bs
  chunkList bs (resizeRows X1 (max_x * bs) (shape1 X1))

/-- `Som._check_input`: the data must be 2-D and its second dimension must
equal `data_dim`. -/
def Som.check_input (m : Som α) (X : Mat α) : Except String Unit :=
  if ndim X ≠ 2 then .error "Your data is not a 2D matrix."
  else if shape1 X ≠ m.data_dim then .error "Your data size != weight dim."
  else .ok ()

/-- numpy `arange(a, b, s)` over rationals (the schedule bookkeeping of
`fit` is float-valued in the source; it never mixes with the data). -/
def arangeQ (a b s : ℚ) : List ℚ :=
  (List.range ⌈(b - a) / s⌉₊).map (fun (k : Nat) => a + (k : ℚ) * s)

/-- The per-epoch mutable state threaded through `Som._epoch`:
the model (whose weights the batches update), the local learning rate,
the influence matrix, and the counters `idx`, `nb_step`, `lr_step`,
`num_processed`. -/
structure TrainState (α : Type) where
  model : Som α
  learning_rate : α
  influences : Mat α
  idx : Nat
  nb_step : Nat
  lr_step : Nat
  num_processed : Nat

/-- One iteration of the batch loop in `Som._epoch`: truncate the final
batch to the un-padded data, propagate it, then fire the neighbourhood
and learning-rate updates whose precomputed step index matches `idx`
(in that order), and advance the counters. -/
def batch_step (B : Backend α) (nbSteps lrSteps : List ℚ) (batch_size data_len : Nat)
    (s : TrainState α) (x0 : Mat α) : TrainState α :=
  let x := if data_len < s.num_processed + batch_size
    then x0.take (data_len - s.num_processed) else x0
  let m1 := (s.model.propagate B x s.influences).1
  let p1 : Nat × Mat α :=
    if ((s.idx : ℚ)) ∈ nbSteps then
      let nb := s.nb_step + 1
      let radius := s.model.nbfunc.eval B s.model.sigma nb nbSteps.length
      (nb, mScale s.learning_rate (m1.calculate_influence B radius))
    else (s.nb_step, s.influences)
  let p2 : Nat × α × Mat α :=
    if ((s.idx : ℚ)) ∈ lrSteps then
      let lstep := s.lr_step + 1
      let i1 := p1.2.map (fun r => r.map (fun v => v / s.learning_rate))
      let lr2 := s.model.lrfunc.eval B s.model.learning_rate lstep lrSteps.length
      (lstep, lr2, mScale lr2 i1)
    else (s.lr_step, s.learning_rate, p1.2)
  { model := m1
    learning_rate := p2.2.1
    influences := p2.2.2
    idx := s.idx + 1
    nb_step := p1.1
    lr_step := p2.1
    num_processed := s.num_processed + batch_size }

/-- `Som._epoch`: reshuffle and rebatch the data, recompute the local
learning rate from the current `lr_step`, and fold the batch loop. -/
def run_epoch (B : Backend α) (shuffleFn : Mat α → Mat α) (X : Mat α)
    (nbSteps lrSteps : List ℚ) (batch_size : Nat) (s0 : TrainState α) : TrainState α :=
  let data_len := X.length
  let batched := create_batches shuffleFn X batch_size true
  let lr := s0.model.lrfunc.eval B s0.model.learning_rate s0.lr_step lrSteps.length
  batched.foldl (batch_step B nbSteps lrSteps batch_size data_len)
    { s0 with learning_rate := lr, num_processed := 0 }

/-- The PCA-based weight seeding of `Som.fit` (`init_pca` branch): map
coordinates normalised to `[-1, 1]`, the external PCA collaborator
(`pca2`, returning `components_` and `explained_variance_`) applied to the
mean-centred data, components rescaled by explained variance over norm,
projected onto the coordinates and shifted by the data mean. -/
def pca_seed (B : Backend α) (pca2 : Mat α → Mat α × List α) (m : Som α)
    (Xs : Mat α) : Mat α :=
  let h := m.map_dimensions.getD 1 0
  let coord : Mat α := (List.range m.weights.length).map
    (fun i => [((((i / h : Nat) : α)) / ((h : Nat) : α) - 1/2) * 2,
               ((((i % h : Nat) : α)) / ((h : Nat) : α) - 1/2) * 2])
  let meanv := (List.range (shape1 Xs)).map (fun j => colMean Xs j)
  let temp := Xs.map (fun r => List.zipWith (· - ·) r meanv)
  let ev := pca2 temp
  let norms := ev.1.map (fun r => B.sqrt ((r.map (fun v => v ^ 2)).sum))
  let eigvec := List.zipWith (fun (r : List α) (ne : α × α) =>
    r.map (fun v => v / ne.1 * ne.2)) ev.1 (norms.zip ev.2)
  coord.map (fun c => vAdd
    ((List.zipWith (fun ck (er : List α) => er.map (fun v => ck * v)) c eigvec).foldl
      vAdd (List.replicate (shape1 Xs) 0)) meanv)

/-- The uniform-random weight seeding of `Som.fit` (`init_pca=False`
branch): `(min + (max - min)) * rand(len(weights), X.shape[1])` on the
scaled data. -/
def random_seed (rand : Nat → Nat → α) (m : Som α) (Xs : Mat α) : Mat α :=
  let minv := (List.range (shape1 Xs)).map (fun j => colMin Xs j)
  let maxv := (List.range (shape1 Xs)).map (fun j => colMax Xs j)
  let data_range := List.zipWith (· + ·) minv (List.zipWith (· - ·) maxv minv)
  (List.range m.weights.length).map (fun u =>
    (List.range (shape1 Xs)).map (fun f => data_range.getD f 0 * rand u f))

/-- `Som.fit`.  External effects are explicit inputs: `pca2` is the PCA
collaborator, `rand` the uniform draw consumed by the random seeding,
`shuffles k` the outcome of the `k`-th shuffle call (call `0` is the
initial batching, call `e + 1` the shuffle of epoch `e`), and `onGpu`
tells whether the data is accelerator-resident (`cp.get_array_module`).
Errors carry the model state at the moment the exception is raised. -/
def Som.fit (m : Som α) (B : Backend α) (pca2 : Mat α → Mat α × List α)
    (rand : Nat → Nat → α) (shuffles : Nat → Mat α → Mat α) (X : Mat α)
    (num_epochs : Nat) (init_pca : Bool) (total_updates : Nat)
    (stop_lr_updates stop_nb_updates : ℚ) (batch_size : Nat) (onGpu : Bool) :
    Som α × Except String Unit :=
  match m.check_input X with
  | .error e => (m, .error e)
  | .ok _ =>
    let pr := Scaler.fit_transform B X
    let Xs := pr.2
    let m1 : Som α := { m with scaler := pr.1 }
    let seeded : Except String (Mat α) :=
      if init_pca then
        if onGpu then .error "PCA is currently not supported on GPU."
        else .ok (pca_seed B pca2 m1 Xs)
      else .ok (random_seed rand m1 Xs)
    match seeded with
    | .error e => (m1, .error e)
    | .ok W0 =>
      let m2 := { m1 with weights := W0 }
      let bs := if batch_size > Xs.length then Xs.length else batch_size
      let train_len := Xs.length * num_epochs / bs
      let _batched := create_batches (shuffles 0) Xs bs true
      let m3 := { m2 with distance_grid := some m2.distance_grid_init }
      let step_lr : ℚ := max ((⌊((train_len : ℚ) * stop_lr_updates) / ((total_updates : Nat) : ℚ)⌋ : ℤ) : ℚ) 1
      let stop_lr : ℚ := (train_len : ℚ) * stop_lr_updates
      let lrSteps := arangeQ step_lr (stop_lr + step_lr) step_lr
      let step_nb : ℚ := max ((⌊((train_len : ℚ) * stop_nb_updates) / ((total_updates : Nat) : ℚ)⌋ : ℤ) : ℚ) 1
      let stop_nb : ℚ := (train_len : ℚ) * stop_nb_updates
      let nbSteps := arangeQ step_nb (stop_nb + step_nb) step_nb
      let radius0 := m.nbfunc.eval B m.sigma 0 nbSteps.length
      let lr0 := m.lrfunc.eval B m.learning_rate 0 lrSteps.length
      let infl0 := mScale lr0 (m3.calculate_influence B radius0)
      let sF := (List.range num_epochs).foldl
        (fun s e => run_epoch B (shuffles (e + 1)) Xs nbSteps lrSteps bs s)
        { model := m3, learning_rate := lr0, influences := infl0,
          idx := 0, nb_step := 0, lr_step := 0, num_processed := 0 }
      let m4 := sF.model
      ({ m4 with trained := true,
                 weights := m4.scaler.inverse_transform m4.weights }, .ok ())

/-- `Som._predict_base`: batch without shuffling, collect the activation
rows batch by batch, truncate to the original length and reshape to
`(len(X), weight_dim)`. -/
def Som.predict_base (m : Som α) (B : Backend α) (X : Mat α) (batch_size : Nat) :
    Except String (Mat α) :=
  match m.check_input X with
  | .error e => .error e
  | .ok _ =>
    let batched := create_batches id X batch_size false
    let activations := (batched.map (fun x => (m.forward B x).1)).flatten
    let truncated := activations.take X.length
    .ok (chunkList m.weight_dim truncated.flatten)

/-- `Som.predict`: the index component of `min_max` over each activation
row. -/
def Som.predict (m : Som α) (B : Backend α) (X : Mat α) (batch_size : Nat) :
    Except String (List Nat) :=
  (m.predict_base B X batch_size).map (fun dist => dist.map (fun r => (m.min_max r).2))

/-- `Som.map_weights`: `inverse_transform` the stored weights, reshape to
`(width, height, data_dim)` and transpose the first two axes. -/
def Som.map_weights (m : Som α) : Mat3 α :=
  let width := m.map_dimensions.getD 0 0
  let height := m.map_dimensions.getD 1 0
  let w := m.scaler.inverse_transform m.weights
  let reshaped := chunkList height w
  (List.range height).map (fun a =>
    (List.range width).map (fun b => (reshaped.getD b []).getD a []))

/-- The persisted document of `Som.save` (weights, dimensions, schedule
tags, learning rate, sigma; the scaler is not persisted). -/
structure SavedSom (α : Type) where
  weights : Mat α
  dimensions : List Nat
  lrtag : String
  nbtag : String
  lr : α
  sigma : α

/-- `Som.save`. -/
def Som.save (m : Som α) : SavedSom α :=
  ⟨m.weights, m.map_dimensions, m.lrfunc.tag, m.nbfunc.tag, m.learning_rate, m.sigma⟩

/-- `Som.load`: rebuild a model through the constructor (with the default
extremum selector `np_min`), inject the stored weights, infer `data_dim`
from the weight matrix and mark the model trained. -/
def Som.load (d : SavedSom α) : Som α :=
  let weights := d.weights
  let datadim := shape1 weights
  let s := Som.new d.dimensions datadim d.lr (schedOfTag d.lrtag)
    (schedOfTag d.nbtag) (some d.sigma) npMin
  { s with weights := weights, trained := true }

/-- Well-formedness of a matrix: `r` rows of `c` entries each. -/
def MatWf (M : Mat α) (r c : Nat) : Prop :=
  M.length = r ∧ ∀ row ∈ M, row.length = c

instance instDecidableMatWf (M : Mat α) (r c : Nat) : Decidable (MatWf M r c) :=
  decidable_of_iff (M.length = r ∧ ∀ row ∈ M, row.length = c) Iff.rfl

/-- `k` is the position of the first minimum of `l`. -/
def IsFirstMinIdx (l : List α) (k : Nat) : Prop :=
  k < l.length ∧ (∀ j < l.length, l.getD k 0 ≤ l.getD j 0) ∧
    ∀ j < k, l.getD k 0 < l.getD j 0

/-- The `(i, j)` entry of the distance grid in its reshaped
`(weight_dim, weight_dim)` view (the view `_calculate_influence` uses). -/
def gridEntry (m : Som α) (i j : Nat) : ℤ :=
  ((m.distance_grid_init.getD i []).flatten).getD j 0

/-- The activation row of one example against a weight matrix: backend
square root of the squared Euclidean distance to every unit. -/
def actRow (B : Backend α) (x : List α) (W : Mat α) : List α :=
  W.map (fun w => B.sqrt (((List.zipWith (· - ·) x w).map (fun v => v ^ 2)).sum))

/-- Equality of the eight hyper-parameter fields that `fit` never writes. -/
def SameHyper (a b : Som α) : Prop :=
  a.sigma = b.sigma ∧ a.learning_rate = b.learning_rate
  ∧ a.map_dimensions = b.map_dimensions ∧ a.weight_dim = b.weight_dim
  ∧ a.data_dim = b.data_dim ∧ a.lrfunc = b.lrfunc
  ∧ a.nbfunc = b.nbfunc ∧ a.min_max = b.min_max

section ListLemmas

variable {β γ δ : Type}

theorem getD_map_of_lt (f : β → γ) (l : List β) (j : Nat) (d : γ) (d' : β)
    (h : j < l.length) : (l.map f).getD j d = f (l.getD j d') := by
  rw [List.getD_eq_getElem _ _ (by simpa using h), List.getD_eq_getElem _ _ h]
  simp

theorem getD_range_map (f : Nat → γ) (n j : Nat) (d : γ) (h : j < n) :
    ((List.range n).map f).getD j d = f j := by
  rw [List.getD_eq_getElem _ _ (by simpa using h)]
  simp [h]

theorem getD_zipWith_of_lt (f : β → γ → δ) (l1 : List β) (l2 : List γ) (j : Nat)
    (d : δ) (d1 : β) (d2 : γ) (h1 : j < l1.length) (h2 : j < l2.length) :
    (List.zipWith f l1 l2).getD j d = f (l1.getD j d1) (l2.getD j d2) := by
  rw [List.getD_eq_getElem _ _ (by simp; omega), List.getD_eq_getElem _ _ h1,
    List.getD_eq_getElem _ _ h2]
  exact List.getElem_zipWith

theorem getD_take_of_lt (l : List β) (k j : Nat) (d : β) (h : j < k) :
    (l.take k).getD j d = l.getD j d := by
  induction k generalizing l j with
  | zero => omega
  | succ k ih =>
    cases l with
    | nil => simp
    | cons a t =>
      cases j with
      | zero => simp [List.getD]
      | succ j =>
        simp only [List.take_succ_cons, List.getD_cons_succ]
        exact ih t j (by omega)

theorem getD_drop_add (l : List β) (k j : Nat) (d : β) :
    (l.drop k).getD j d = l.getD (k + j) d := by
  induction k generalizing l with
  | zero => simp
  | succ k ih =>
    cases l with
    | nil => simp
    | cons a t =>
      simp only [List.drop_succ_cons, Nat.succ_add, List.getD_cons_succ]
      exact ih t

theorem getD_flatten_uniform (d : β) (h : Nat) (L : List (List β))
    (hu : ∀ r ∈ L, r.length = h) (j : Nat) (hj : j < L.length * h) :
    L.flatten.getD j d = (L.getD (j / h) []).getD (j % h) d := by
  induction L generalizing j with
  | nil => simp at hj
  | cons r t ih =>
    have hr : r.length = h := hu r (by simp)
    have hlen : (r :: t).length * h = t.length * h + h := by
      simp [List.length_cons, Nat.succ_mul]
    rw [hlen] at hj
    have hpos : 0 < h := by
      by_contra hh
      have hz : h = 0 := by omega
      subst hz
      simp at hj
    by_cases hcase : j < h
    · rw [List.flatten_cons, List.getD_append _ _ _ _ (by omega),
        Nat.div_eq_of_lt hcase, Nat.mod_eq_of_lt hcase]
      simp [List.getD_cons_zero]
    · have hge : h ≤ j := by omega
      rw [List.flatten_cons, List.getD_append_right _ _ _ _ (by omega)]
      have hj' : j - h < t.length * h := by omega
      have hrec := ih (fun r hrr => hu r (by simp [hrr])) (j - h) hj'
      rw [hr, hrec]
      have hdiv : (j - h) / h = j / h - 1 := by
        have h1 : j - h + h = j := by omega
        have h2 : (j - h + h) / h = (j - h) / h + 1 := Nat.add_div_right _ hpos
        rw [h1] at h2
        rw [h2, Nat.add_sub_cancel]
      have hdivpos : 1 ≤ j / h := (Nat.one_le_div_iff hpos).mpr hge
      have hmod : (j - h) % h = j % h := by
        conv_rhs => rw [← Nat.sub_add_cancel hge]
        rw [Nat.add_mod_right]
      rw [hdiv, hmod]
      have hsucc : j / h = (j / h - 1) + 1 := by omega
      rw [hsucc, List.getD_cons_succ, Nat.add_sub_cancel]

theorem length_chunkList (k : Nat) (l : List β) :
    (chunkList k l).length = l.length / k := by
  simp [chunkList]

theorem getD_chunkList (k : Nat) (l : List β) (i : Nat) (hi : i < l.length / k) :
    (chunkList k l).getD i [] = (l.drop (i * k)).take k := by
  unfold chunkList
  exact getD_range_map _ _ _ _ hi

end ListLemmas

/-- C3: for all unit indices `i, j < unit_count`, the distance grid built at
the start of `fit` (the `(weight_dim, weight_dim)` view of
`_initialize_distance_grid`) satisfies
`D[i,j] = (row_i - row_j)^2 + (col_i - col_j)^2` with `row_k = k / height`
and `col_k = k % height`; in particular it is symmetric with zero
diagonal. -/
theorem grid_distance_shape (m : Som α) (w h index : Nat)
    (hdim : m.map_dimensions = [w, h]) :
    (m.grid_distance index).length = w ∧ ∀ r ∈ m.grid_distance index, r.length = h := by
  simp only [Som.grid_distance, hdim]
  constructor
  · simp
  · intro r hr
    simp only [List.mem_map] at hr
    obtain ⟨aa, _, rfl⟩ := hr
    simp

theorem grid_distance_entry (m : Som α) (w h index a b : Nat)
    (hdim : m.map_dimensions = [w, h]) (ha : a < w) (hb : b < h) :
    ((m.grid_distance index).getD a []).getD b 0
      = |((a : ℤ)) - ((index / h : Nat) : ℤ)| ^ 2
        + |((b : ℤ)) - ((index % h : Nat) : ℤ)| ^ 2 := by
  simp only [Som.grid_distance, hdim]
  rw [show ([w, h].getD 1 0) = h from rfl, show ([w, h].getD 0 0) = w from rfl]
  rw [getD_range_map _ _ _ _ ha, getD_range_map _ _ _ _ hb]

theorem gridEntry_eq (m : Som α) (w h : Nat)
    (hdim : m.map_dimensions = [w, h]) (hwd : m.weight_dim = w * h)
    (hpos : 0 < h) (a b : Nat) (ha : a < w * h) (hb : b < w * h) :
    gridEntry m a b
      = (((b / h : Nat) : ℤ) - ((a / h : Nat) : ℤ)) ^ 2
        + (((b % h : Nat) : ℤ) - ((a % h : Nat) : ℤ)) ^ 2 := by
  unfold gridEntry Som.distance_grid_init
  rw [hwd, getD_range_map _ _ _ _ ha]
  obtain ⟨hlen, hu⟩ := grid_distance_shape m w h a hdim
  rw [getD_flatten_uniform 0 h _ hu b (by rw [hlen]; exact hb)]
  rw [grid_distance_entry m w h a (b / h) (b % h) hdim
    (Nat.div_lt_of_lt_mul (by rw [Nat.mul_comm]; exact hb)) (Nat.mod_lt _ hpos)]
  rw [sq_abs, sq_abs]

/-- C3: for all unit indices `i, j < unit_count`, the distance grid built at
the start of `fit` (the `(weight_dim, weight_dim)` view of
`_initialize_distance_grid`) satisfies
`D[i,j] = (row_i - row_j)^2 + (col_i - col_j)^2` with `row_k = k / height`
and `col_k = k % height`; in particular it is symmetric with zero
diagonal. -/
theorem distance_grid_formula (m : Som α) (w h i j : Nat)
    (hdim : m.map_dimensions = [w, h]) (hwd : m.weight_dim = w * h)
    (hi : i < w * h) (hj : j < w * h) :
    gridEntry m i j
      = (((i / h : Nat) : ℤ) - ((j / h : Nat) : ℤ)) ^ 2
        + (((i % h : Nat) : ℤ) - ((j % h : Nat) : ℤ)) ^ 2
    ∧ gridEntry m i j = gridEntry m j i
    ∧ gridEntry m i i = 0 := by
  have hpos : 0 < h := by
    by_contra hh
    have hz : h = 0 := by omega
    subst hz
    simp at hi
  have e1 := gridEntry_eq m w h hdim hwd hpos i j hi hj
  have e2 := gridEntry_eq m w h hdim hwd hpos j i hj hi
  have e3 := gridEntry_eq m w h hdim hwd hpos i i hi hi
  refine ⟨?_, ?_, ?_⟩
  · rw [e1]; ring
  · rw [e1, e2]; ring
  · rw [e3]; ring

theorem npMin_spec : ∀ (l : List α), l ≠ [] →
    (npMin l).2 < l.length ∧ (npMin l).1 = l.getD (npMin l).2 0 ∧
    (∀ j < l.length, (npMin l).1 ≤ l.getD j 0) ∧
    (∀ j < (npMin l).2, (npMin l).1 < l.getD j 0)
  | [], h => absurd rfl h
  | [a], _ => by
    refine ⟨by simp [npMin], by simp [npMin, List.getD_cons_zero], ?_, ?_⟩
    · intro j hj
      have hz : j = 0 := by simpa using hj
      subst hz
      simp [npMin, List.getD_cons_zero]
    · intro j hj
      simp [npMin] at hj
  | a :: b :: t, _ => by
    obtain ⟨ih1, ih2, ih3, ih4⟩ := npMin_spec (b :: t) (by simp)
    have hred : npMin (a :: b :: t)
        = if a ≤ (npMin (b :: t)).1 then (a, 0)
          else ((npMin (b :: t)).1, (npMin (b :: t)).2 + 1) := rfl
    by_cases hc : a ≤ (npMin (b :: t)).1
    · rw [hred, if_pos hc]
      refine ⟨by simp, by simp [List.getD_cons_zero], ?_, ?_⟩
      · intro j hj
        cases j with
        | zero => simp [List.getD_cons_zero]
        | succ j =>
          rw [List.getD_cons_succ]
          exact le_trans hc (ih3 j (by simpa using hj))
      · intro j hj
        simp at hj
    · rw [hred, if_neg hc]
      refine ⟨by simpa using ih1, by simpa [List.getD_cons_succ] using ih2, ?_, ?_⟩
      · intro j hj
        cases j with
        | zero =>
          rw [List.getD_cons_zero]
          exact (lt_of_not_le hc).le
        | succ j =>
          rw [List.getD_cons_succ]
          exact ih3 j (by simpa using hj)
      · intro j hj
        cases j with
        | zero =>
          rw [List.getD_cons_zero]
          exact lt_of_not_le hc
        | succ j =>
          rw [List.getD_cons_succ]
          exact ih4 j (by simpa using hj)

theorem npMin_isFirstMin (l : List α) (hl : l ≠ []) :
    IsFirstMinIdx l (npMin l).2 := by
  obtain ⟨h1, h2, h3, h4⟩ := npMin_spec l hl
  refine ⟨h1, ?_, ?_⟩
  · intro j hj
    rw [← h2]
    exact h3 j hj
  · intro j hj
    rw [← h2]
    exact h4 j hj

theorem getD_enum {β : Type} (r : List β) (j : Nat) (d : Nat × β) (d' : β)
    (h : j < r.length) : r.enum.getD j d = (j, r.getD j d') := by
  rw [List.getD_eq_getElem _ _ (by simpa using h), List.getD_eq_getElem _ _ h]
  simp

theorem ndim_eq_two {X : Mat α} (h : ndim X = 2) :
    X ≠ [] ∧ ∀ r ∈ X, r.length = shape1 X := by
  unfold ndim at h
  split_ifs at h with h1 h2
  · exact absurd h (by omega)
  · refine ⟨by simpa [List.isEmpty_iff] using h1, ?_⟩
    intro r hr
    simpa using List.all_eq_true.mp h2 r hr
  · exact absurd h (by omega)

theorem transform_entry (sc : Scaler α) (X : Mat α) (i j : Nat)
    (hi : i < X.length) (hj : j < (X.getD i []).length) :
    entry (sc.transform X) i j
      = (entry X i j - sc.mean.getD j 0) / (sc.std.getD j 0 + scalerEps) := by
  unfold Scaler.transform entry
  rw [getD_map_of_lt _ _ _ _ [] hi]
  rw [getD_map_of_lt _ _ _ _ (0, 0) (by simpa using hj)]
  rw [getD_enum _ _ _ 0 hj]

theorem inverse_transform_entry (sc : Scaler α) (X : Mat α) (i j : Nat)
    (hi : i < X.length) (hj : j < (X.getD i []).length) :
    entry (sc.inverse_transform X) i j
      = entry X i j * sc.std.getD j 0 + sc.mean.getD j 0 := by
  unfold Scaler.inverse_transform entry
  rw [getD_map_of_lt _ _ _ _ [] hi]
  rw [getD_map_of_lt _ _ _ _ (0, 0) (by simpa using hj)]
  rw [getD_enum _ _ _ 0 hj]

theorem transform_row_length (sc : Scaler α) (X : Mat α) (i : Nat)
    (hi : i < X.length) :
    ((sc.transform X).getD i []).length = (X.getD i []).length := by
  unfold Scaler.transform
  rw [getD_map_of_lt _ _ _ _ [] hi]
  simp

theorem transform_length (sc : Scaler α) (X : Mat α) :
    (sc.transform X).length = X.length := by
  unfold Scaler.transform
  simp

theorem fitted_mean_getD (B : Backend α) (X : Mat α) (j : Nat) (hj : j < shape1 X) :
    (Scaler.fitted B X).mean.getD j 0 = colMean X j := by
  unfold Scaler.fitted
  exact getD_range_map _ _ _ _ hj

theorem fitted_std_getD (B : Backend α) (X : Mat α) (j : Nat) (hj : j < shape1 X) :
    (Scaler.fitted B X).std.getD j 0 = B.sqrt (colVar X j) := by
  unfold Scaler.fitted
  exact getD_range_map _ _ _ _ hj

theorem scalerEps_pos : (0 : α) < scalerEps := by
  unfold scalerEps
  norm_num

theorem sum_sq_dev_eq (X : Mat α) (j : Nat) (hX : X ≠ []) :
    (X.map (fun r => (r.getD j 0 - colMean X j) ^ 2)).sum
      = (X.length : α) * colVar X j := by
  unfold colVar
  have hn : ((X.length : Nat) : α) ≠ 0 := by
    have : X.length ≠ 0 := by
      intro hz
      exact hX (List.length_eq_zero.mp hz)
    exact_mod_cast Nat.cast_ne_zero.mpr this
  field_simp

theorem matwf_row {M : Mat α} {r c : Nat} (h : MatWf M r c) {u : Nat} (hu : u < r) :
    (M.getD u []).length = c := by
  obtain ⟨hlen, hrows⟩ := h
  apply hrows
  rw [List.getD_eq_getElem _ _ (by omega)]
  exact List.getElem_mem _

theorem getD_vAdd (a b : List α) (j : Nat) (hja : j < a.length) (hjb : j < b.length) :
    (vAdd a b).getD j 0 = a.getD j 0 + b.getD j 0 :=
  getD_zipWith_of_lt _ _ _ _ _ _ _ hja hjb

theorem vAdd_wf (a b : List α) (c : Nat) (ha : a.length = c) (hb : b.length = c) :
    (vAdd a b).length = c := by
  simp [vAdd, ha, hb]

theorem mAdd_wf {A B : Mat α} {r c : Nat} (hA : MatWf A r c) (hB : MatWf B r c) :
    MatWf (mAdd A B) r c := by
  obtain ⟨hAl, hAr⟩ := hA
  obtain ⟨hBl, hBr⟩ := hB
  constructor
  · simp [mAdd, hAl, hBl]
  · intro row hrow
    unfold mAdd at hrow
    rw [List.mem_iff_getElem] at hrow
    obtain ⟨k, hk, rfl⟩ := hrow
    have hkA : k < A.length := by simp at hk; omega
    have hkB : k < B.length := by simp at hk; omega
    rw [List.getElem_zipWith]
    exact vAdd_wf _ _ _ (hAr _ (List.getElem_mem _)) (hBr _ (List.getElem_mem _))

theorem entry_mAdd {A B : Mat α} {r c : Nat} (hA : MatWf A r c) (hB : MatWf B r c)
    {u f : Nat} (hu : u < r) (hf : f < c) :
    entry (mAdd A B) u f = entry A u f + entry B u f := by
  unfold entry mAdd
  rw [getD_zipWith_of_lt vAdd A B u [] [] []
    (by rw [hA.1]; exact hu) (by rw [hB.1]; exact hu)]
  exact getD_vAdd _ _ _
    (by rw [matwf_row hA hu]; exact hf)
    (by rw [matwf_row hB hu]; exact hf)

theorem entry_mScale (c' : α) (M : Mat α) (u f : Nat) :
    entry (mScale c' M) u f = c' * entry M u f := by
  unfold entry mScale
  by_cases hu : u < M.length
  · rw [getD_map_of_lt _ _ _ _ [] hu]
    by_cases hf : f < (M.getD u []).length
    · rw [getD_map_of_lt _ _ _ _ 0 hf]
    · have h1 : ((M.getD u []).map (fun v => c' * v)).getD f 0 = 0 :=
        List.getD_eq_default _ _ (by simpa using not_lt.mp hf)
      have h2 : (M.getD u []).getD f 0 = 0 :=
        List.getD_eq_default _ _ (not_lt.mp hf)
      rw [h1, h2]
      ring
  · have h1 : (M.map (fun r => r.map (fun v => c' * v))).getD u [] = [] :=
      List.getD_eq_default _ _ (by simpa using not_lt.mp hu)
    have h2 : M.getD u [] = [] := List.getD_eq_default _ _ (not_lt.mp hu)
    rw [h1, h2]
    simp

theorem getD_map_mul_scalar (dv : List α) (c : α) (f : Nat) :
    (dv.map (fun v => v * c)).getD f 0 = dv.getD f 0 * c := by
  by_cases hf : f < dv.length
  · exact getD_map_of_lt _ _ _ _ 0 hf
  · have h1 : (dv.map (fun v => v * c)).getD f 0 = 0 :=
      List.getD_eq_default _ _ (by simpa using not_lt.mp hf)
    have h2 : dv.getD f 0 = 0 := List.getD_eq_default _ _ (not_lt.mp hf)
    rw [h1, h2]
    ring

theorem foldl_mAdd_wf {r c : Nat} (l : List (Mat α)) (acc : Mat α)
    (hacc : MatWf acc r c) (hl : ∀ M ∈ l, MatWf M r c) :
    MatWf (l.foldl mAdd acc) r c := by
  induction l generalizing acc with
  | nil => exact hacc
  | cons M t ih =>
    exact ih _ (mAdd_wf hacc (hl M (List.mem_cons_self M t)))
      (fun N hN => hl N (List.mem_cons_of_mem M hN))

theorem entry_foldl_mAdd {r c : Nat} (l : List (Mat α)) (acc : Mat α)
    (hacc : MatWf acc r c) (hl : ∀ M ∈ l, MatWf M r c)
    {u f : Nat} (hu : u < r) (hf : f < c) :
    entry (l.foldl mAdd acc) u f
      = entry acc u f + (l.map (fun M => entry M u f)).sum := by
  induction l generalizing acc with
  | nil => simp
  | cons M t ih =>
    have hM : MatWf M r c := hl M (List.mem_cons_self M t)
    rw [List.foldl_cons,
      ih _ (mAdd_wf hacc hM) (fun N hN => hl N (List.mem_cons_of_mem M hN)),
      entry_mAdd hacc hM hu hf]
    simp [add_assoc]

theorem mMean_wf {r c : Nat} (l : Mat3 α) (hl : ∀ M ∈ l, MatWf M r c) (hne : l ≠ []) :
    MatWf (mMean l) r c := by
  cases l with
  | nil => exact absurd rfl hne
  | cons M t =>
    have hfold : MatWf (t.foldl mAdd M) r c :=
      foldl_mAdd_wf t M (hl M (by simp)) (fun N hN => hl N (by simp [hN]))
    constructor
    · simp [mMean, mScale, hfold.1]
    · intro row hrow
      simp only [mMean, mScale, List.mem_map] at hrow
      obtain ⟨row', hrow', rfl⟩ := hrow
      simp [hfold.2 row' hrow']

theorem entry_mMean {r c : Nat} (l : Mat3 α) (hl : ∀ M ∈ l, MatWf M r c)
    (hne : l ≠ []) {u f : Nat} (hu : u < r) (hf : f < c) :
    entry (mMean l) u f = (l.map (fun M => entry M u f)).sum / (l.length : α) := by
  cases l with
  | nil => exact absurd rfl hne
  | cons M t =>
    have hM : MatWf M r c := hl M (by simp)
    rw [show mMean (M :: t)
        = mScale (1 / ((t.length + 1 : Nat) : α)) (t.foldl mAdd M) from rfl]
    rw [entry_mScale,
      entry_foldl_mAdd t M hM (fun N hN => hl N (by simp [hN])) hu hf]
    simp only [List.map_cons, List.sum_cons, List.length_cons]
    field_simp

theorem sum_map_eq_sum_range {β : Type} (l : List β) (g : β → α) (d : β) :
    (l.map g).sum = ((List.range l.length).map (fun k => g (l.getD k d))).sum := by
  induction l with
  | nil => simp
  | cons a t ih =>
    have hstep : ((List.range (t.length + 1)).map (fun k => g ((a :: t).getD k d))).sum
        = g a + ((List.range t.length).map (fun k => g (t.getD k d))).sum := by
      rw [List.range_succ_eq_map, List.map_cons, List.sum_cons, List.map_map]
      have h1 : (List.range t.length).map ((fun k => g ((a :: t).getD k d)) ∘ Nat.succ)
          = (List.range t.length).map (fun k => g (t.getD k d)) :=
        List.map_congr_left (fun k _ => by simp [Function.comp, List.getD_cons_succ])
      rw [h1]
      simp
    rw [List.map_cons, List.sum_cons, List.length_cons, hstep, ih]

theorem entry3_calculate_update (x : Mat3 α) (infl : Mat α) (b u f : Nat)
    (hb : b < x.length) (hb2 : b < infl.length)
    (hu : u < (x.getD b []).length) (hu2 : u < (infl.getD b []).length) :
    entry3 (calculate_update x infl) b u f
      = entry3 x b u f * entry infl b u := by
  unfold entry3 entry calculate_update
  rw [getD_zipWith_of_lt _ _ _ _ _ [] [] hb hb2]
  rw [getD_zipWith_of_lt _ _ _ _ _ [] 0 hu hu2]
  exact getD_map_mul_scalar _ _ _

theorem calculate_update_wf {wd dim bsz : Nat} (x : Mat3 α) (infl : Mat α)
    (hx : x.length = bsz) (hxm : ∀ M ∈ x, MatWf M wd dim)
    (hinfl : infl.length = bsz) (hinflr : ∀ r ∈ infl, r.length = wd) :
    (calculate_update x infl).length = bsz
    ∧ ∀ M ∈ calculate_update x infl, MatWf M wd dim := by
  constructor
  · simp [calculate_update, hx, hinfl]
  · intro M hM
    unfold calculate_update at hM
    rw [List.mem_iff_getElem] at hM
    obtain ⟨k, hk, rfl⟩ := hM
    simp only [List.length_zipWith, hx, hinfl, Nat.min_self] at hk
    have hkx : k < x.length := by rw [hx]; omega
    have hki : k < infl.length := by rw [hinfl]; omega
    rw [List.getElem_zipWith, ← List.getD_eq_getElem x [] hkx,
      ← List.getD_eq_getElem infl [] hki]
    have hxk : MatWf (x.getD k []) wd dim := by
      refine hxm _ ?_
      rw [List.getD_eq_getElem _ _ hkx]
      exact List.getElem_mem _
    have hik : (infl.getD k []).length = wd := by
      refine hinflr _ ?_
      rw [List.getD_eq_getElem _ _ hki]
      exact List.getElem_mem _
    constructor
    · rw [List.length_zipWith, hxk.1, hik]
      exact Nat.min_self wd
    · intro row hrow
      rw [List.mem_iff_getElem] at hrow
      obtain ⟨k2, hk2, rfl⟩ := hrow
      rw [List.getElem_zipWith]
      simp only [List.length_map]
      exact hxk.2 _ (List.getElem_mem _)

theorem apply_influences_getD (m : Som α) (acts infl : Mat α) (b : Nat)
    (hb : b < acts.length) :
    (m.apply_influences acts infl).getD b []
      = infl.getD (m.min_max (acts.getD b [])).2 [] := by
  unfold Som.apply_influences
  exact getD_map_of_lt _ _ _ _ [] hb

theorem apply_influences_length (m : Som α) (acts infl : Mat α) :
    (m.apply_influences acts infl).length = acts.length := by
  simp [Som.apply_influences]

theorem backward_formula (m : Som α) (diff : Mat3 α) (I : Mat α) (act : Mat α)
    (wd dim bsz : Nat)
    (hW : MatWf m.weights wd dim) (hI : MatWf I wd wd)
    (hact : act.length = bsz) (hactr : ∀ r ∈ act, r.length = wd)
    (hdiff : diff.length = bsz) (hdiffm : ∀ M ∈ diff, MatWf M wd dim)
    (hb : 0 < bsz) (hwd : 0 < wd)
    (hbmu : ∀ b < bsz, (m.min_max (act.getD b [])).2 < wd) :
    (∀ u f, u < wd → f < dim →
      entry (m.backward diff I act).weights u f
        = entry m.weights u f
          + ((List.range bsz).map (fun b =>
              entry3 diff b u f * entry I (m.min_max (act.getD b [])).2 u)).sum
            / (bsz : α))
    ∧ MatWf (m.backward diff I act).weights wd dim := by
  -- the selected influence rows
  have hsel_len : (m.apply_influences act I).length = bsz := by
    rw [apply_influences_length, hact]
  have hsel_row : ∀ b < bsz,
      (m.apply_influences act I).getD b []
        = I.getD (m.min_max (act.getD b [])).2 [] := by
    intro b hbb
    rw [apply_influences_getD m act I b (by omega)]
  have hsel_rows_wd : ∀ r ∈ m.apply_influences act I, r.length = wd := by
    intro r hr
    unfold Som.apply_influences at hr
    rw [List.mem_map] at hr
    obtain ⟨row, hrow, rfl⟩ := hr
    rw [List.mem_iff_getElem] at hrow
    obtain ⟨k, hk, rfl⟩ := hrow
    have hk' : k < bsz := by omega
    have hbmu2 := hbmu k hk'
    rw [← List.getD_eq_getElem act [] hk]
    refine hI.2 _ ?_
    rw [List.getD_eq_getElem _ _ (by rw [hI.1]; exact hbmu2)]
    exact List.getElem_mem _
  have hupd := calculate_update_wf diff (m.apply_influences act I) hdiff hdiffm
    hsel_len hsel_rows_wd
  have hupd_ne : calculate_update diff (m.apply_influences act I) ≠ [] := by
    intro hnil
    have := hupd.1
    rw [hnil] at this
    simp at this
    omega
  have hmean_wf := mMean_wf _ hupd.2 hupd_ne
  refine ⟨?_, mAdd_wf hW hmean_wf⟩
  intro u f hu hf
  have hbw : (m.backward diff I act).weights
      = mAdd m.weights (mMean (calculate_update diff (m.apply_influences act I))) := rfl
  rw [hbw, entry_mAdd hW hmean_wf hu hf,
    entry_mMean _ hupd.2 hupd_ne hu hf, hupd.1]
  congr 1
  rw [sum_map_eq_sum_range (calculate_update diff (m.apply_influences act I))
    (fun M => entry M u f) ([] : Mat α), hupd.1]
  congr 1
  refine congrArg List.sum (List.map_congr_left ?_)
  intro b hbb
  rw [List.mem_range] at hbb
  have hmemd : diff.getD b [] ∈ diff := by
    rw [List.getD_eq_getElem _ _ (by omega)]
    exact List.getElem_mem _
  have hgu : u < (diff.getD b []).length := by
    rw [(hdiffm _ hmemd).1]
    exact hu
  have hgu2 : u < ((m.apply_influences act I).getD b []).length := by
    rw [hsel_row b hbb, matwf_row hI (hbmu b hbb)]
    exact hu
  have hen : entry ((calculate_update diff (m.apply_influences act I)).getD b []) u f
      = entry3 (calculate_update diff (m.apply_influences act I)) b u f := rfl
  rw [hen, entry3_calculate_update _ _ _ _ _ (by omega) (by rw [hsel_len]; omega)
    hgu hgu2]
  have hsel : entry (m.apply_influences act I) b u
      = entry I (m.min_max (act.getD b [])).2 u := by
    unfold entry
    rw [hsel_row b hbb]
  rw [hsel]

/-- C1: the backward pass replaces the weights by
`W + mean_over_batch (diff[b] * I[bmu b])` where `bmu b` is the extremum of
activation row `b` under the configured selector (here the default
`np_min`, i.e. the first arg-min), and changes nothing else in the model.
The entry formula, the shape preservation and the arg-min characterisation
of the BMU are stated together with the frame conditions on every other
field. -/
theorem backward_mean_update (m : Som α) (diff : Mat3 α) (I : Mat α) (act : Mat α)
    (wd dim bsz : Nat)
    (hmm : m.min_max = npMin)
    (hW : MatWf m.weights wd dim) (hI : MatWf I wd wd)
    (hact : act.length = bsz) (hactr : ∀ r ∈ act, r.length = wd)
    (hdiff : diff.length = bsz) (hdiffm : ∀ M ∈ diff, MatWf M wd dim)
    (hb : 0 < bsz) (hwd : 0 < wd) :
    (∀ u f, u < wd → f < dim →
      entry (m.backward diff I act).weights u f
        = entry m.weights u f
          + ((List.range bsz).map (fun b =>
              entry3 diff b u f * entry I (npMin (act.getD b [])).2 u)).sum
            / (bsz : α))
    ∧ MatWf (m.backward diff I act).weights wd dim
    ∧ (∀ b < bsz, IsFirstMinIdx (act.getD b []) (npMin (act.getD b [])).2)
    ∧ (m.backward diff I act).sigma = m.sigma
    ∧ (m.backward diff I act).learning_rate = m.learning_rate
    ∧ (m.backward diff I act).map_dimensions = m.map_dimensions
    ∧ (m.backward diff I act).weight_dim = m.weight_dim
    ∧ (m.backward diff I act).data_dim = m.data_dim
    ∧ (m.backward diff I act).lrfunc = m.lrfunc
    ∧ (m.backward diff I act).nbfunc = m.nbfunc
    ∧ (m.backward diff I act).distance_grid = m.distance_grid
    ∧ (m.backward diff I act).min_max = m.min_max
    ∧ (m.backward diff I act).trained = m.trained
    ∧ (m.backward diff I act).scaler = m.scaler := by
  have hrow_ne : ∀ b < bsz, act.getD b [] ≠ [] := by
    intro b hbb
    have : (act.getD b []).length = wd := by
      refine hactr _ ?_
      rw [List.getD_eq_getElem _ _ (by omega)]
      exact List.getElem_mem _
    intro hnil
    rw [hnil] at this
    simp at this
    omega
  have hbmu : ∀ b < bsz, (m.min_max (act.getD b [])).2 < wd := by
    intro b hbb
    rw [hmm]
    have hlen : (act.getD b []).length = wd := by
      refine hactr _ ?_
      rw [List.getD_eq_getElem _ _ (by omega)]
      exact List.getElem_mem _
    have := (npMin_spec (act.getD b []) (hrow_ne b hbb)).1
    omega
  obtain ⟨hformula, hwf⟩ := backward_formula m diff I act wd dim bsz
    hW hI hact hactr hdiff hdiffm hb hwd hbmu
  refine ⟨?_, hwf, ?_, rfl, rfl, rfl, rfl, rfl, rfl, rfl, rfl, rfl, rfl, rfl⟩
  · intro u f hu hf
    have h2 := hformula u f hu hf
    rw [hmm] at h2
    exact h2
  · intro b hbb
    exact npMin_isFirstMin _ (hrow_ne b hbb)

theorem resizeRows_length (X : Mat α) (rows cols : Nat) :
    (resizeRows X rows cols).length = rows := by
  unfold resizeRows
  simp only [List.length_append, List.length_take, List.length_replicate]
  omega

theorem le_ceil_mul (n b0 : Nat) (hb : 0 < b0) (hn : 0 < n) :
    n ≤ ((n + b0 - 1) / b0) * b0 := by
  have h := Nat.div_add_mod (n + b0 - 1) b0
  have hr : (n + b0 - 1) % b0 < b0 := Nat.mod_lt _ hb
  rw [Nat.mul_comm]
  omega

theorem chunkList_cons {β : Type} (k : Nat) (hk : 0 < k) (l : List β)
    (hlen : k ≤ l.length) :
    chunkList k l = l.take k :: chunkList k (l.drop k) := by
  unfold chunkList
  have hq : l.length / k = (l.length - k) / k + 1 := by
    have h2 : (l.length - k + k) / k = (l.length - k) / k + 1 := Nat.add_div_right _ hk
    have h1 : l.length - k + k = l.length := by omega
    rw [h1] at h2
    exact h2
  rw [hq, List.range_succ_eq_map, List.map_cons, List.map_map]
  congr 1
  · simp
  · rw [List.length_drop]
    apply List.map_congr_left
    intro i _
    simp only [Function.comp_apply]
    rw [List.drop_drop]
    congr 2
    rw [Nat.succ_mul, Nat.mul_comm i k]
    omega

theorem flatten_chunkList {β : Type} (k : Nat) (hk : 0 < k) :
    ∀ (q : Nat) (l : List β), l.length = q * k → (chunkList k l).flatten = l := by
  intro q
  induction q with
  | zero =>
    intro l hl
    have : l = [] := List.length_eq_zero.mp (by omega)
    subst this
    simp [chunkList]
  | succ q ih =>
    intro l hl
    have hklen : k ≤ l.length := by
      rw [hl, Nat.succ_mul]
      omega
    rw [chunkList_cons k hk l hklen, List.flatten_cons,
      ih (l.drop k) (by rw [List.length_drop, hl, Nat.succ_mul]; omega),
      List.take_append_drop]

theorem chunkList_flatten {β : Type} (k : Nat) (hk : 0 < k) (rows : List (List β))
    (hu : ∀ r ∈ rows, r.length = k) :
    chunkList k rows.flatten = rows := by
  induction rows with
  | nil => simp [chunkList]
  | cons r t ih =>
    have hr : r.length = k := hu r (List.mem_cons_self r t)
    have hlen : k ≤ (r ++ t.flatten).length := by
      rw [List.length_append, hr]
      omega
    rw [List.flatten_cons, chunkList_cons k hk _ hlen]
    have htake : (r ++ t.flatten).take k = r := by
      rw [← hr]
      exact List.take_left r _
    have hdrop : (r ++ t.flatten).drop k = t.flatten := by
      rw [← hr]
      exact List.drop_left r _
    rw [htake, hdrop, ih (fun s hs => hu s (List.mem_cons_of_mem r hs))]

theorem forward_rows (m : Som α) (B : Backend α) (x : Mat α) :
    (m.forward B x).1 = x.map (fun xi => actRow B xi m.weights) := by
  simp only [Som.forward, distance_function, distance_difference, actRow]
  rw [List.map_map]
  apply List.map_congr_left
  intro xi _
  simp only [Function.comp_apply]
  rw [List.map_map]
  rfl

theorem create_batches_flatten (X : Mat α) (bs : Nat) (hn : X ≠ []) (hbs : 1 ≤ bs) :
    ∃ pad : Nat,
      (create_batches id X bs false).flatten
        = X ++ List.replicate pad (List.replicate (shape1 X) 0) := by
  have hnpos : 0 < X.length := List.length_pos.mpr hn
  unfold create_batches
  simp only [if_neg (by simp : ¬(false = true)), id]
  set b0 := if bs > X.length then X.length else bs with hb0
  have hb0pos : 0 < b0 := by
    rw [hb0]
    split_ifs with hcond
    · exact hnpos
    · omega
  set mx := (X.length + b0 - 1) / b0 with hmx
  have hle : X.length ≤ mx * b0 := le_ceil_mul X.length b0 hb0pos hnpos
  refine ⟨mx * b0 - X.length, ?_⟩
  rw [flatten_chunkList b0 hb0pos mx _ (by rw [resizeRows_length])]
  unfold resizeRows
  rw [List.take_of_length_le (by omega)]

theorem predict_base_eq (m : Som α) (B : Backend α) (X : Mat α) (bs : Nat)
    (hX2 : ndim X = 2) (hdim : shape1 X = m.data_dim) (hbs : 1 ≤ bs)
    (hW : MatWf m.weights m.weight_dim m.data_dim) (hwd : 0 < m.weight_dim) :
    m.predict_base B X bs
      = Except.ok (X.map (fun x => actRow B x m.weights)) := by
  obtain ⟨hne, _⟩ := ndim_eq_two hX2
  have hcheck : m.check_input X = .ok () := by
    unfold Som.check_input
    rw [if_neg (by rw [hX2]; omega), if_neg (by rw [hdim]; omega)]
  unfold Som.predict_base
  rw [hcheck]
  obtain ⟨pad, hpad⟩ := create_batches_flatten X bs hne hbs
  have hrowsmap : ((create_batches id X bs false).map (fun x => (m.forward B x).1))
      = (create_batches id X bs false).map (fun x => x.map (fun xi => actRow B xi m.weights)) :=
    List.map_congr_left (fun x _ => forward_rows m B x)
  have hflat : ((create_batches id X bs false).map (fun x => (m.forward B x).1)).flatten
      = ((create_batches id X bs false).flatten).map (fun xi => actRow B xi m.weights) := by
    rw [hrowsmap, ← List.map_flatten]
  have htake : (((create_batches id X bs false).map
        (fun x => (m.forward B x).1)).flatten).take X.length
      = X.map (fun xi => actRow B xi m.weights) := by
    rw [hflat, hpad, List.map_append]
    rw [show X.length = (X.map (fun xi => actRow B xi m.weights)).length by simp]
    exact List.take_left _ _
  show Except.ok (chunkList m.weight_dim
      ((((create_batches id X bs false).map (fun x => (m.forward B x).1)).flatten.take
        X.length).flatten))
    = Except.ok (X.map (fun x => actRow B x m.weights))
  rw [htake]
  congr 1
  apply chunkList_flatten m.weight_dim hwd
  intro r hr
  rw [List.mem_map] at hr
  obtain ⟨xi, _, rfl⟩ := hr
  unfold actRow
  rw [List.length_map]
  exact hW.1

theorem sameHyper_refl (a : Som α) : SameHyper a a :=
  ⟨rfl, rfl, rfl, rfl, rfl, rfl, rfl, rfl⟩

theorem sameHyper_trans {a b c : Som α} (h1 : SameHyper a b) (h2 : SameHyper b c) :
    SameHyper a c := by
  obtain ⟨x1, x2, x3, x4, x5, x6, x7, x8⟩ := h1
  obtain ⟨y1, y2, y3, y4, y5, y6, y7, y8⟩ := h2
  exact ⟨x1.trans y1, x2.trans y2, x3.trans y3, x4.trans y4, x5.trans y5,
    x6.trans y6, x7.trans y7, x8.trans y8⟩

theorem batch_step_sameHyper (B : Backend α) (nbSteps lrSteps : List ℚ)
    (batch_size data_len : Nat) (s : TrainState α) (x0 : Mat α) :
    SameHyper ((batch_step B nbSteps lrSteps batch_size data_len s x0).model) s.model :=
  ⟨rfl, rfl, rfl, rfl, rfl, rfl, rfl, rfl⟩

theorem foldl_batch_step_sameHyper (B : Backend α) (nbSteps lrSteps : List ℚ)
    (batch_size data_len : Nat) (l : Mat3 α) (s : TrainState α) :
    SameHyper ((l.foldl (batch_step B nbSteps lrSteps batch_size data_len) s).model)
      s.model := by
  induction l generalizing s with
  | nil => exact sameHyper_refl _
  | cons x t ih =>
    exact sameHyper_trans (ih _)
      (batch_step_sameHyper B nbSteps lrSteps batch_size data_len s x)

theorem run_epoch_sameHyper (B : Backend α) (shuffleFn : Mat α → Mat α) (X : Mat α)
    (nbSteps lrSteps : List ℚ) (batch_size : Nat) (s0 : TrainState α) :
    SameHyper ((run_epoch B shuffleFn X nbSteps lrSteps batch_size s0).model)
      s0.model :=
  foldl_batch_step_sameHyper B nbSteps lrSteps batch_size X.length _ _

theorem foldl_run_epoch_sameHyper (B : Backend α) (shuffles : Nat → Mat α → Mat α)
    (Xs : Mat α) (nbSteps lrSteps : List ℚ) (batch_size : Nat)
    (l : List Nat) (s0 : TrainState α) :
    SameHyper ((l.foldl
        (fun s e => run_epoch B (shuffles (e + 1)) Xs nbSteps lrSteps batch_size s)
        s0).model) s0.model := by
  induction l generalizing s0 with
  | nil => exact sameHyper_refl _
  | cons e t ih =>
    exact sameHyper_trans (ih _)
      (run_epoch_sameHyper B (shuffles (e + 1)) Xs nbSteps lrSteps batch_size s0)

/-- C10: every `fit` call, on every control path (input rejected, PCA/GPU
error, or full training), leaves `sigma`, `learning_rate`,
`map_dimensions`, `weight_dim`, `data_dim`, `lrfunc`, `nbfunc` and
`min_max` unchanged; consequently a `save` taken after `fit` persists the
constructor-time `sigma` and learning rate.  (The decayed radius and rate
are locals of the run; only `weights`, `scaler`, `distance_grid` and
`trained` — the remaining four fields — are written.) -/
theorem fit_preserves_hyperparameters (m : Som α) (B : Backend α)
    (pca2 : Mat α → Mat α × List α) (rand : Nat → Nat → α)
    (shuffles : Nat → Mat α → Mat α) (X : Mat α)
    (ne : Nat) (ip : Bool) (tu : Nat) (slr snb : ℚ) (bs : Nat) (gpu : Bool) :
    (Som.fit m B pca2 rand shuffles X ne ip tu slr snb bs gpu).1.sigma = m.sigma
    ∧ (Som.fit m B pca2 rand shuffles X ne ip tu slr snb bs gpu).1.learning_rate
        = m.learning_rate
    ∧ (Som.fit m B pca2 rand shuffles X ne ip tu slr snb bs gpu).1.map_dimensions
        = m.map_dimensions
    ∧ (Som.fit m B pca2 rand shuffles X ne ip tu slr snb bs gpu).1.weight_dim
        = m.weight_dim
    ∧ (Som.fit m B pca2 rand shuffles X ne ip tu slr snb bs gpu).1.data_dim
        = m.data_dim
    ∧ (Som.fit m B pca2 rand shuffles X ne ip tu slr snb bs gpu).1.lrfunc = m.lrfunc
    ∧ (Som.fit m B pca2 rand shuffles X ne ip tu slr snb bs gpu).1.nbfunc = m.nbfunc
    ∧ (Som.fit m B pca2 rand shuffles X ne ip tu slr snb bs gpu).1.min_max = m.min_max
    ∧ (Som.save (Som.fit m B pca2 rand shuffles X ne ip tu slr snb bs gpu).1).sigma
        = m.sigma
    ∧ (Som.save (Som.fit m B pca2 rand shuffles X ne ip tu slr snb bs gpu).1).lr
        = m.learning_rate := by
  have key : SameHyper (Som.fit m B pca2 rand shuffles X ne ip tu slr snb bs gpu).1 m := by
    unfold Som.fit
    cases hc : m.check_input X with
    | error e => exact sameHyper_refl _
    | ok u =>
      cases u
      cases ip with
      | true =>
        cases gpu with
        | true => exact sameHyper_refl _
        | false =>
          exact sameHyper_trans
            (foldl_run_epoch_sameHyper B shuffles _ _ _ _ (List.range ne) _)
            (sameHyper_refl _)
      | false =>
        exact sameHyper_trans
          (foldl_run_epoch_sameHyper B shuffles _ _ _ _ (List.range ne) _)
          (sameHyper_refl _)
  obtain ⟨h1, h2, h3, h4, h5, h6, h7, h8⟩ := key
  exact ⟨h1, h2, h3, h4, h5, h6, h7, h8, h1, h2⟩

/-- C7: on an input that is not a 2-D array or whose second dimension
differs from `data_dim`, `fit` raises the shape error before any mutation:
the returned model is exactly the old one (weights, scaler, distance grid
and the trained flag included), and a previously-untrained model stays
untrained. -/
theorem fit_shape_error_no_mutation (m : Som α) (B : Backend α)
    (pca2 : Mat α → Mat α × List α) (rand : Nat → Nat → α)
    (shuffles : Nat → Mat α → Mat α) (X : Mat α)
    (ne : Nat) (ip : Bool) (tu : Nat) (slr snb : ℚ) (bs : Nat) (gpu : Bool)
    (hbad : ndim X ≠ 2 ∨ shape1 X ≠ m.data_dim) :
    (∃ e, Som.fit m B pca2 rand shuffles X ne ip tu slr snb bs gpu
        = (m, Except.error e))
    ∧ (Som.fit m B pca2 rand shuffles X ne ip tu slr snb bs gpu).1.weights = m.weights
    ∧ (Som.fit m B pca2 rand shuffles X ne ip tu slr snb bs gpu).1.scaler = m.scaler
    ∧ (Som.fit m B pca2 rand shuffles X ne ip tu slr snb bs gpu).1.distance_grid
        = m.distance_grid
    ∧ (Som.fit m B pca2 rand shuffles X ne ip tu slr snb bs gpu).1.trained = m.trained
    ∧ (m.trained = false →
        (Som.fit m B pca2 rand shuffles X ne ip tu slr snb bs gpu).1.trained = false) := by
  have hcheck : ∃ e, m.check_input X = .error e := by
    unfold Som.check_input
    rcases hbad with h | h
    · exact ⟨_, if_pos h⟩
    · by_cases h2 : ndim X ≠ 2
      · exact ⟨_, if_pos h2⟩
      · rw [if_neg h2, if_pos h]
        exact ⟨_, rfl⟩
  obtain ⟨e, he⟩ := hcheck
  have hfit : Som.fit m B pca2 rand shuffles X ne ip tu slr snb bs gpu
      = (m, Except.error e) := by
    unfold Som.fit
    rw [he]
  refine ⟨⟨e, hfit⟩, ?_, ?_, ?_, ?_, ?_⟩ <;> rw [hfit] <;> intros <;> simp_all

/-- Witness for C7: a model with `data_dim = 1` fed a row of width 2. -/
theorem fit_shape_error_no_mutation_witness :
    (ndim [[(1 : ℚ), 2]] ≠ 2
      ∨ shape1 [[(1 : ℚ), 2]] ≠ (Som.new [1, 1] 1 (0 : ℚ) .expo .expo none npMin).data_dim)
    ∧ (∃ e, Som.fit (Som.new [1, 1] 1 (0 : ℚ) .expo .expo none npMin) ⟨id, id⟩
        (fun _ => ([], [])) (fun _ _ => 0) (fun _ x => x) [[(1 : ℚ), 2]]
        1 true 50 1 1 2 false
        = (Som.new [1, 1] 1 (0 : ℚ) .expo .expo none npMin, Except.error e)) := by
  have h := fit_shape_error_no_mutation (Som.new [1, 1] 1 (0 : ℚ) .expo .expo none npMin)
    ⟨id, id⟩ (fun _ => ([], [])) (fun _ _ => 0) (fun _ x => x) [[(1 : ℚ), 2]]
    1 true 50 1 1 2 false (by right; decide)
  exact ⟨by right; decide, h.1⟩

/-- C6 (amended): for a valid accelerator-resident input with
`init_pca=True`, `fit` raises the configuration error before the weights,
distance grid or trained flag are touched — but after `scaler.fit_transform`
has run, so the scaler's mean, std and `is_fit` flag ARE mutated: the
returned model carries the freshly fitted scaler. -/
theorem fit_gpu_pca_error_state (m : Som α) (B : Backend α)
    (pca2 : Mat α → Mat α × List α) (rand : Nat → Nat → α)
    (shuffles : Nat → Mat α → Mat α) (X : Mat α)
    (ne : Nat) (tu : Nat) (slr snb : ℚ) (bs : Nat)
    (hok : m.check_input X = .ok ()) :
    Som.fit m B pca2 rand shuffles X ne true tu slr snb bs true
      = ({ m with scaler := Scaler.fitted B X },
         Except.error "PCA is currently not supported on GPU.")
    ∧ (Som.fit m B pca2 rand shuffles X ne true tu slr snb bs true).1.scaler.is_fit
        = true
    ∧ (Som.fit m B pca2 rand shuffles X ne true tu slr snb bs true).1.weights
        = m.weights
    ∧ (Som.fit m B pca2 rand shuffles X ne true tu slr snb bs true).1.distance_grid
        = m.distance_grid
    ∧ (Som.fit m B pca2 rand shuffles X ne true tu slr snb bs true).1.trained
        = m.trained := by
  have hfit : Som.fit m B pca2 rand shuffles X ne true tu slr snb bs true
      = ({ m with scaler := Scaler.fitted B X },
         Except.error "PCA is currently not supported on GPU.") := by
    unfold Som.fit
    rw [hok]
    rfl
  refine ⟨hfit, ?_, ?_, ?_, ?_⟩
  · rw [hfit]; rfl
  · rw [hfit]
  · rw [hfit]
  · rw [hfit]

/-- Witness for C6's amended theorem on a concrete valid input. -/
theorem fit_gpu_pca_error_state_witness :
    (Som.new [1, 1] 1 (0 : ℚ) .expo .expo none npMin).check_input [[(0 : ℚ)], [2]]
      = .ok ()
    ∧ Som.fit (Som.new [1, 1] 1 (0 : ℚ) .expo .expo none npMin) ⟨id, id⟩
        (fun _ => ([], [])) (fun _ _ => 0) (fun _ x => x) [[(0 : ℚ)], [2]]
        1 true 50 1 1 2 true
      = ({ Som.new [1, 1] 1 (0 : ℚ) .expo .expo none npMin with
            scaler := Scaler.fitted ⟨id, id⟩ [[(0 : ℚ)], [2]] },
         Except.error "PCA is currently not supported on GPU.") := by
  have h := fit_gpu_pca_error_state (Som.new [1, 1] 1 (0 : ℚ) .expo .expo none npMin)
    ⟨id, id⟩ (fun _ => ([], [])) (fun _ _ => 0) (fun _ x => x) [[(0 : ℚ)], [2]]
    1 50 1 1 2 (by rfl)
  exact ⟨by rfl, h.1⟩

/-- Counterexample for C6 as stated: on a valid GPU input with
`init_pca=True` the error is raised, but the scaler HAS been mutated — its
`is_fit` flag, `false` before the call, is `true` on the model the failed
call leaves behind, contradicting "no model state is mutated, including
the scaler's mean, std and is_fit flag". -/
theorem fit_gpu_pca_mutates_scaler_cex :
    (Som.new [1, 1] 1 (0 : ℚ) .expo .expo none npMin).scaler.is_fit = false
    ∧ ((Som.fit (Som.new [1, 1] 1 (0 : ℚ) .expo .expo none npMin) ⟨id, id⟩
        (fun _ => ([], [])) (fun _ _ => 0) (fun _ x => x) [[(0 : ℚ)], [2]]
        1 true 50 1 1 2 true).2
      = Except.error "PCA is currently not supported on GPU.")
    ∧ ((Som.fit (Som.new [1, 1] 1 (0 : ℚ) .expo .expo none npMin) ⟨id, id⟩
        (fun _ => ([], [])) (fun _ _ => 0) (fun _ x => x) [[(0 : ℚ)], [2]]
        1 true 50 1 1 2 true).1.scaler.is_fit = true) :=
  ⟨rfl, rfl, rfl⟩

theorem predict_eq_map (m : Som α) (B : Backend α) (X : Mat α) (bs : Nat)
    (hX2 : ndim X = 2) (hdim : shape1 X = m.data_dim) (hbs : 1 ≤ bs)
    (hW : MatWf m.weights m.weight_dim m.data_dim) (hwd : 0 < m.weight_dim) :
    m.predict B X bs
      = Except.ok (X.map (fun x => (m.min_max (actRow B x m.weights)).2)) := by
  unfold Som.predict
  rw [predict_base_eq m B X bs hX2 hdim hbs hW hwd]
  show Except.ok ((X.map (fun x => actRow B x m.weights)).map (fun r => (m.min_max r).2))
    = _
  rw [List.map_map]
  rfl

/-- C2: on a valid 2-D input (`X.shape[1] == data_dim`) and any
`batch_size >= 1`, `predict` succeeds and returns exactly one unit index
per input row, namely the index chosen by the configured extremum selector
on that row's activation (the backend square root of the Euclidean squared
distance to every weight row); the result does not depend on the batch
size, and with the default `np_min` selector each returned index is the
first arg-min of the Euclidean distances.  (The source's predict path
performs no assignment to the model, which the embedding reflects by
returning only the index list.) -/
theorem predict_argmin_batch_invariant (m : Som α) (B : Backend α) (X : Mat α)
    (bs : Nat)
    (hX2 : ndim X = 2) (hdim : shape1 X = m.data_dim) (hbs : 1 ≤ bs)
    (hW : MatWf m.weights m.weight_dim m.data_dim) (hwd : 0 < m.weight_dim) :
    m.predict B X bs
      = Except.ok (X.map (fun x => (m.min_max (actRow B x m.weights)).2))
    ∧ (X.map (fun x => (m.min_max (actRow B x m.weights)).2)).length = X.length
    ∧ (∀ bs2, 1 ≤ bs2 → m.predict B X bs2 = m.predict B X bs)
    ∧ (m.min_max = npMin →
        ∀ x ∈ X, IsFirstMinIdx (actRow B x m.weights)
          ((m.min_max (actRow B x m.weights)).2)) := by
  refine ⟨predict_eq_map m B X bs hX2 hdim hbs hW hwd, by simp, ?_, ?_⟩
  · intro bs2 h2
    rw [predict_eq_map m B X bs2 hX2 hdim h2 hW hwd,
      predict_eq_map m B X bs hX2 hdim hbs hW hwd]
  · intro hmm x _
    rw [hmm]
    apply npMin_isFirstMin
    have : (actRow B x m.weights).length = m.weight_dim := by
      unfold actRow
      rw [List.length_map]
      exact hW.1
    intro hnil
    rw [hnil] at this
    simp at this
    omega

/-- Witness for C2 on a 2-unit map with input `[[3], [0]]` and batch size 1. -/
theorem predict_argmin_batch_invariant_witness :
    ndim [[(3 : ℚ)], [0]] = 2
    ∧ shape1 [[(3 : ℚ)], [0]] = (Som.new [1, 2] 1 (0 : ℚ) .expo .expo none npMin).data_dim
    ∧ (1 : Nat) ≤ 1
    ∧ MatWf (Som.new [1, 2] 1 (0 : ℚ) .expo .expo none npMin).weights
        (Som.new [1, 2] 1 (0 : ℚ) .expo .expo none npMin).weight_dim
        (Som.new [1, 2] 1 (0 : ℚ) .expo .expo none npMin).data_dim
    ∧ 0 < (Som.new [1, 2] 1 (0 : ℚ) .expo .expo none npMin).weight_dim
    ∧ (Som.new [1, 2] 1 (0 : ℚ) .expo .expo none npMin).predict ⟨id, id⟩
        [[(3 : ℚ)], [0]] 1
      = Except.ok ([[(3 : ℚ)], [0]].map (fun x =>
          ((Som.new [1, 2] 1 (0 : ℚ) .expo .expo none npMin).min_max
            (actRow ⟨id, id⟩ x
              (Som.new [1, 2] 1 (0 : ℚ) .expo .expo none npMin).weights)).2)) := by
  have h := predict_argmin_batch_invariant
    (Som.new [1, 2] 1 (0 : ℚ) .expo .expo none npMin) ⟨id, id⟩
    [[(3 : ℚ)], [0]] 1 (by decide) (by decide) (by decide)
    (by decide) (by decide)
  exact ⟨by decide, by decide, by decide, by decide, by decide, h.1⟩

theorem foldl_min_le_self (l : List α) (a : α) : l.foldl min a ≤ a := by
  induction l generalizing a with
  | nil => simp
  | cons x t ih => exact le_trans (ih (min a x)) (min_le_left a x)

theorem foldl_min_le_mem (l : List α) (a x : α) (hx : x ∈ l) : l.foldl min a ≤ x := by
  induction l generalizing a with
  | nil => simp at hx
  | cons y t ih =>
    rcases List.mem_cons.mp hx with rfl | hx'
    · exact le_trans (foldl_min_le_self t (min a x)) (min_le_right a x)
    · exact ih (min a y) hx'

theorem le_foldl_max_self (l : List α) (a : α) : a ≤ l.foldl max a := by
  induction l generalizing a with
  | nil => simp
  | cons x t ih => exact le_trans (le_max_left a x) (ih (max a x))

theorem le_foldl_max_mem (l : List α) (a x : α) (hx : x ∈ l) : x ≤ l.foldl max a := by
  induction l generalizing a with
  | nil => simp at hx
  | cons y t ih =>
    rcases List.mem_cons.mp hx with rfl | hx'
    · exact le_trans (le_max_right a x) (le_foldl_max_self t (max a x))
    · exact ih (max a y) hx'

theorem colMin_le_mem_entry (X : Mat α) (f : Nat) (r : List α) (hr : r ∈ X) :
    colMin X f ≤ r.getD f 0 := by
  have hmem : r.getD f 0 ∈ X.map (fun s => s.getD f 0) :=
    List.mem_map.mpr ⟨r, hr, rfl⟩
  unfold colMin
  cases hX : X.map (fun s => s.getD f 0) with
  | nil =>
    rw [hX] at hmem
    simp at hmem
  | cons a t =>
    rw [hX] at hmem
    rcases List.mem_cons.mp hmem with h | h
    · rw [h]
      exact foldl_min_le_self t a
    · exact foldl_min_le_mem t a _ h

theorem mem_entry_le_colMax (X : Mat α) (f : Nat) (r : List α) (hr : r ∈ X) :
    r.getD f 0 ≤ colMax X f := by
  have hmem : r.getD f 0 ∈ X.map (fun s => s.getD f 0) :=
    List.mem_map.mpr ⟨r, hr, rfl⟩
  unfold colMax
  cases hX : X.map (fun s => s.getD f 0) with
  | nil =>
    rw [hX] at hmem
    simp at hmem
  | cons a t =>
    rw [hX] at hmem
    rcases List.mem_cons.mp hmem with h | h
    · rw [h]
      exact le_foldl_max_self t a
    · exact le_foldl_max_mem t a _ h

theorem mul_length_le_sum (l : List α) (c : α) (h : ∀ x ∈ l, c ≤ x) :
    (l.length : α) * c ≤ l.sum := by
  induction l with
  | nil => simp
  | cons a t ih =>
    have ht := ih (fun x hx => h x (List.mem_cons_of_mem a hx))
    have ha := h a (List.mem_cons_self a t)
    simp only [List.length_cons, List.sum_cons]
    push_cast
    nlinarith [ht, ha]

theorem sum_le_mul_length (l : List α) (c : α) (h : ∀ x ∈ l, x ≤ c) :
    l.sum ≤ (l.length : α) * c := by
  induction l with
  | nil => simp
  | cons a t ih =>
    have ht := ih (fun x hx => h x (List.mem_cons_of_mem a hx))
    have ha := h a (List.mem_cons_self a t)
    simp only [List.length_cons, List.sum_cons]
    push_cast
    nlinarith [ht, ha]

theorem colMin_le_colMean (X : Mat α) (f : Nat) (hne : X ≠ []) :
    colMin X f ≤ colMean X f := by
  have hn : (0 : α) < (X.length : α) := by
    have := List.length_pos.mpr hne
    exact_mod_cast this
  unfold colMean
  rw [le_div_iff hn]
  have hb := mul_length_le_sum (X.map (fun r => r.getD f 0)) (colMin X f) ?_
  · rw [List.length_map] at hb
    linarith [hb]
  · intro x hx
    rw [List.mem_map] at hx
    obtain ⟨r, hr, rfl⟩ := hx
    exact colMin_le_mem_entry X f r hr

theorem colMean_le_colMax (X : Mat α) (f : Nat) (hne : X ≠ []) :
    colMean X f ≤ colMax X f := by
  have hn : (0 : α) < (X.length : α) := by
    have := List.length_pos.mpr hne
    exact_mod_cast this
  unfold colMean
  rw [div_le_iff hn]
  have hb := sum_le_mul_length (X.map (fun r => r.getD f 0)) (colMax X f) ?_
  · rw [List.length_map] at hb
    linarith [hb]
  · intro x hx
    rw [List.mem_map] at hx
    obtain ⟨r, hr, rfl⟩ := hx
    exact mem_entry_le_colMax X f r hr

theorem sum_map_div {β : Type} (l : List β) (g : β → α) (c : α) :
    (l.map (fun x => g x / c)).sum = (l.map g).sum / c := by
  induction l with
  | nil => simp
  | cons a t ih => simp [ih, add_div]

theorem sum_map_sub {β : Type} (l : List β) (g h : β → α) :
    (l.map (fun x => g x - h x)).sum = (l.map g).sum - (l.map h).sum := by
  induction l with
  | nil => simp
  | cons a t ih =>
    simp only [List.map_cons, List.sum_cons, ih]
    ring

theorem sum_map_const {β : Type} (l : List β) (c : α) :
    (l.map (fun _ => c)).sum = (l.length : α) * c := by
  induction l with
  | nil => simp
  | cons a t ih =>
    simp only [List.map_cons, List.sum_cons, List.length_cons, ih]
    push_cast
    ring

theorem shape1_transform (sc : Scaler α) (X : Mat α) :
    shape1 (sc.transform X) = shape1 X := by
  unfold shape1 Scaler.transform
  cases X with
  | nil => rfl
  | cons r t => simp

theorem transform_col (B : Backend α) (X : Mat α) (f : Nat)
    (hX2 : ndim X = 2) (hf : f < shape1 X) :
    ((Scaler.fitted B X).transform X).map (fun r => r.getD f 0)
      = X.map (fun r =>
          (r.getD f 0 - colMean X f) / (B.sqrt (colVar X f) + scalerEps)) := by
  obtain ⟨hne, hrows⟩ := ndim_eq_two hX2
  unfold Scaler.transform
  rw [List.map_map]
  apply List.map_congr_left
  intro r hr
  simp only [Function.comp_apply]
  have hfr : f < r.length := by rw [hrows r hr]; exact hf
  rw [getD_map_of_lt _ _ _ _ (0, 0) (by simpa using hfr), getD_enum _ _ _ 0 hfr]
  rw [fitted_mean_getD B X f hf, fitted_std_getD B X f hf]

theorem col_sum_eq (X : Mat α) (f : Nat) (hne : X ≠ []) :
    (X.map (fun r => r.getD f 0)).sum = (X.length : α) * colMean X f := by
  have hn : ((X.length : Nat) : α) ≠ 0 := by
    have := List.length_pos.mpr hne
    positivity
  unfold colMean
  field_simp

theorem transform_colMean_zero (B : Backend α) (X : Mat α) (f : Nat)
    (hX2 : ndim X = 2) (hf : f < shape1 X) :
    colMean ((Scaler.fitted B X).transform X) f = 0 := by
  obtain ⟨hne, _⟩ := ndim_eq_two hX2
  unfold colMean
  rw [transform_col B X f hX2 hf, sum_map_div, sum_map_sub, sum_map_const,
    col_sum_eq X f hne]
  simp

theorem random_seed_entry (rand : Nat → Nat → α) (m : Som α) (Xs : Mat α)
    (u f : Nat) (hu : u < m.weights.length) (hf : f < shape1 Xs) :
    entry (random_seed rand m Xs) u f
      = (colMin Xs f + (colMax Xs f - colMin Xs f)) * rand u f := by
  unfold random_seed entry
  rw [getD_range_map _ _ _ _ hu, getD_range_map _ _ _ _ hf]
  congr 1
  rw [getD_zipWith_of_lt _ _ _ _ _ 0 0 (by simpa using hf)
      (by simp only [List.length_zipWith, List.length_map, List.length_range]; omega)]
  rw [getD_zipWith_of_lt _ _ _ _ _ 0 0 (by simpa using hf) (by simpa using hf)]
  rw [getD_range_map _ _ _ _ hf, getD_range_map _ _ _ _ hf]

/-- C8: with `init_pca=False`, `fit` seeds the weights by
`(min + (max - min)) * rand(len(weights), X.shape[1])` on the scaled data,
and for every admissible outcome of the uniform draw in `[0, 1)` every
seeded component for feature `f` lies inside the closed interval
`[min_f, max_f]` of the scaled training column (the scaled column has mean
zero, so `min_f <= 0 <= max_f`). -/
theorem random_seeding_within_range (B : Backend α) (X : Mat α) (m : Som α)
    (rand : Nat → Nat → α) (u f : Nat)
    (hX2 : ndim X = 2)
    (hr : ∀ a b, 0 ≤ rand a b ∧ rand a b < 1)
    (hu : u < m.weights.length) (hf : f < shape1 X) :
    colMin ((Scaler.fit_transform B X).2) f
        ≤ entry (random_seed rand m ((Scaler.fit_transform B X).2)) u f
    ∧ entry (random_seed rand m ((Scaler.fit_transform B X).2)) u f
        ≤ colMax ((Scaler.fit_transform B X).2) f := by
  obtain ⟨hne, _⟩ := ndim_eq_two hX2
  have hXs : (Scaler.fit_transform B X).2 = (Scaler.fitted B X).transform X := rfl
  rw [hXs]
  have hne' : (Scaler.fitted B X).transform X ≠ [] := by
    intro hnil
    have hlen := transform_length (Scaler.fitted B X) X
    rw [hnil] at hlen
    simp at hlen
    exact hne (List.length_eq_zero.mp hlen.symm)
  have hf' : f < shape1 ((Scaler.fitted B X).transform X) := by
    rw [shape1_transform]
    exact hf
  have hmean0 : colMean ((Scaler.fitted B X).transform X) f = 0 :=
    transform_colMean_zero B X f hX2 hf
  have hminle : colMin ((Scaler.fitted B X).transform X) f ≤ 0 := by
    have h := colMin_le_colMean _ f hne'
    rw [hmean0] at h
    exact h
  have hmaxge : 0 ≤ colMax ((Scaler.fitted B X).transform X) f := by
    have h := colMean_le_colMax _ f hne'
    rw [hmean0] at h
    exact h
  rw [random_seed_entry rand m _ u f hu hf']
  have hrange : colMin ((Scaler.fitted B X).transform X) f
      + (colMax ((Scaler.fitted B X).transform X) f
        - colMin ((Scaler.fitted B X).transform X) f)
      = colMax ((Scaler.fitted B X).transform X) f := by ring
  rw [hrange]
  obtain ⟨hr0, hr1⟩ := hr u f
  constructor
  · exact le_trans hminle (mul_nonneg hmaxge hr0)
  · exact mul_le_of_le_one_right hmaxge hr1.le

/-- Witness for C8 on `X = [[0], [2]]`, a single unit row and the constant
draw `1/2`. -/
theorem random_seeding_within_range_witness :
    ndim [[(0 : ℚ)], [2]] = 2
    ∧ (∀ a b : Nat, 0 ≤ ((fun _ _ => 1/2 : Nat → Nat → ℚ)) a b
        ∧ ((fun _ _ => 1/2 : Nat → Nat → ℚ)) a b < 1)
    ∧ 0 < (Som.new [1, 1] 1 (0 : ℚ) .expo .expo none npMin).weights.length
    ∧ 0 < shape1 [[(0 : ℚ)], [2]]
    ∧ (colMin ((Scaler.fit_transform ⟨id, id⟩ [[(0 : ℚ)], [2]]).2) 0
        ≤ entry (random_seed (fun _ _ => 1/2)
            (Som.new [1, 1] 1 (0 : ℚ) .expo .expo none npMin)
            ((Scaler.fit_transform ⟨id, id⟩ [[(0 : ℚ)], [2]]).2)) 0 0
      ∧ entry (random_seed (fun _ _ => 1/2)
            (Som.new [1, 1] 1 (0 : ℚ) .expo .expo none npMin)
            ((Scaler.fit_transform ⟨id, id⟩ [[(0 : ℚ)], [2]]).2)) 0 0
          ≤ colMax ((Scaler.fit_transform ⟨id, id⟩ [[(0 : ℚ)], [2]]).2) 0) := by
  have h := random_seeding_within_range (⟨id, id⟩ : Backend ℚ) [[(0 : ℚ)], [2]]
    (Som.new [1, 1] 1 (0 : ℚ) .expo .expo none npMin) (fun _ _ => 1/2) 0 0
    (by decide) (fun a b => by norm_num) (by decide) (by decide)
  exact ⟨by decide, fun a b => by norm_num, by decide, by decide, h⟩

/-- Witness for C1 on a concrete batch: a 2-unit map with one example whose
activation row `[5, 3]` selects unit 1. -/
theorem backward_mean_update_witness :
    (Som.new [1, 2] 1 (1/2 : ℚ) .expo .expo none npMin).min_max = npMin
    ∧ MatWf (Som.new [1, 2] 1 (1/2 : ℚ) .expo .expo none npMin).weights 2 1
    ∧ MatWf [[(1 : ℚ), 2], [3, 4]] 2 2
    ∧ ([[(5 : ℚ), 3]] : Mat ℚ).length = 1
    ∧ (∀ r ∈ ([[(5 : ℚ), 3]] : Mat ℚ), r.length = 2)
    ∧ ([[[(1 : ℚ)], [2]]] : Mat3 ℚ).length = 1
    ∧ (∀ M ∈ ([[[(1 : ℚ)], [2]]] : Mat3 ℚ), MatWf M 2 1)
    ∧ (0 : Nat) < 1 ∧ (0 : Nat) < 2
    ∧ (∀ u f, u < 2 → f < 1 →
        entry ((Som.new [1, 2] 1 (1/2 : ℚ) .expo .expo none npMin).backward
            [[[(1 : ℚ)], [2]]] [[(1 : ℚ), 2], [3, 4]] [[(5 : ℚ), 3]]).weights u f
          = entry (Som.new [1, 2] 1 (1/2 : ℚ) .expo .expo none npMin).weights u f
            + ((List.range 1).map (fun b =>
                entry3 [[[(1 : ℚ)], [2]]] b u f
                  * entry [[(1 : ℚ), 2], [3, 4]]
                    (npMin (([[(5 : ℚ), 3]] : Mat ℚ).getD b [])).2 u)).sum
              / ((1 : Nat) : ℚ)) := by
  have h := backward_mean_update (Som.new [1, 2] 1 (1/2 : ℚ) .expo .expo none npMin)
    [[[(1 : ℚ)], [2]]] [[(1 : ℚ), 2], [3, 4]] [[(5 : ℚ), 3]] 2 1 1
    rfl (by constructor <;> decide) (by constructor <;> decide)
    (by decide) (by decide) (by decide) (by decide) (by decide) (by decide)
  exact ⟨rfl, by constructor <;> decide, by constructor <;> decide, by decide,
    by decide, by decide, by decide, by decide, by decide, h.1⟩

/-- C4: after `Scaler.fit` on a 2-D array `X`, the round trip
`inverse_transform (transform X)` reproduces every entry of `X` up to the
`10e-6`-induced tolerance: the absolute error is at most
`eps * |X[i,j]| + eps * C` for any `C >= sqrt(len(X))` (a small constant;
the error never exceeds `eps` times the square root of the row count).
`inverse_transform` is `X * std + mean` and deliberately does not undo the
`eps` term. -/
theorem scaler_round_trip_bound (B : Backend α) (X : Mat α) (i j : Nat) (C : α)
    (hX2 : ndim X = 2) (hi : i < X.length) (hj : j < shape1 X)
    (h0 : 0 ≤ B.sqrt (colVar X j))
    (hsq : B.sqrt (colVar X j) * B.sqrt (colVar X j) = colVar X j)
    (hC : 0 ≤ C) (hC2 : (X.length : α) ≤ C * C) :
    |entry ((Scaler.fitted B X).inverse_transform ((Scaler.fitted B X).transform X)) i j
        - entry X i j|
      ≤ scalerEps * |entry X i j| + scalerEps * C := by
  obtain ⟨hne, hrows⟩ := ndim_eq_two hX2
  have hrowlen : (X.getD i []).length = shape1 X := by
    have hmem : X.getD i [] ∈ X := by
      rw [List.getD_eq_getElem _ _ hi]
      exact List.getElem_mem _
    exact hrows _ hmem
  have hj' : j < (X.getD i []).length := by rw [hrowlen]; exact hj
  set s := B.sqrt (colVar X j) with hs
  set m := colMean X j with hm
  set x := entry X i j with hx
  set ε : α := scalerEps with he
  have hε : (0 : α) < ε := scalerEps_pos
  have ht : (0 : α) < s + ε := by linarith
  have htrans : entry ((Scaler.fitted B X).transform X) i j = (x - m) / (s + ε) := by
    rw [transform_entry _ _ _ _ hi hj', fitted_mean_getD B X j hj, fitted_std_getD B X j hj]
  have hrecon : entry ((Scaler.fitted B X).inverse_transform
      ((Scaler.fitted B X).transform X)) i j = (x - m) / (s + ε) * s + m := by
    rw [inverse_transform_entry _ _ _ _
      (by rw [transform_length]; exact hi)
      (by rw [transform_row_length _ _ _ hi, hrowlen]; exact hj)]
    rw [htrans, fitted_mean_getD B X j hj, fitted_std_getD B X j hj]
  have hdiff : entry ((Scaler.fitted B X).inverse_transform
      ((Scaler.fitted B X).transform X)) i j - x = -((x - m) * ε) / (s + ε) := by
    rw [hrecon]
    field_simp
    ring
  have habs : |entry ((Scaler.fitted B X).inverse_transform
      ((Scaler.fitted B X).transform X)) i j - x| = |x - m| * ε / (s + ε) := by
    rw [hdiff, abs_div, abs_neg, abs_mul, abs_of_pos hε, abs_of_pos ht]
  -- |x - m| <= C * s via the variance characterisation
  have hsqsum : (x - m) ^ 2 ≤ (X.length : α) * colVar X j := by
    rw [← sum_sq_dev_eq X j hne]
    apply List.single_le_sum
    · intro y hy
      simp only [List.mem_map] at hy
      obtain ⟨r, _, rfl⟩ := hy
      positivity
    · have : (x - m) ^ 2 = ((X.getD i []).getD j 0 - m) ^ 2 := by rw [hx]; rfl
      rw [this]
      have hmem : X.getD i [] ∈ X := by
        rw [List.getD_eq_getElem _ _ hi]
        exact List.getElem_mem _
      exact List.mem_map.mpr ⟨X.getD i [], hmem, rfl⟩
  have hvar : colVar X j = s * s := hsq.symm
  have hd2 : (x - m) ^ 2 ≤ (C * s) * (C * s) := by
    calc (x - m) ^ 2 ≤ (X.length : α) * colVar X j := hsqsum
    _ ≤ (C * C) * (s * s) := by
        rw [hvar]
        apply mul_le_mul_of_nonneg_right hC2 (mul_self_nonneg s)
    _ = (C * s) * (C * s) := by ring
  have hdle : |x - m| ≤ C * s :=
    le_of_pow_le_pow_left two_ne_zero (mul_nonneg hC h0)
      (by rw [sq_abs, pow_two (C * s)]; exact hd2)
  calc |entry ((Scaler.fitted B X).inverse_transform
        ((Scaler.fitted B X).transform X)) i j - x|
      = |x - m| * ε / (s + ε) := habs
    _ ≤ (C * s) * ε / (s + ε) :=
        div_le_div_of_nonneg_right (mul_le_mul_of_nonneg_right hdle hε.le) ht.le
    _ ≤ ε * C := by
        rw [div_le_iff ht]
        nlinarith [mul_nonneg (mul_nonneg hC hε.le) hε.le]
    _ ≤ ε * |x| + ε * C := by
        have : 0 ≤ ε * |x| := mul_nonneg hε.le (abs_nonneg x)
        linarith

/-- Witness for C4 on `X = [[0], [2]]` (variance 1, a perfect square) with
the identity as the backend square root and `C = 2 >= sqrt 2`. -/
theorem scaler_round_trip_bound_witness :
    ndim [[(0 : ℚ)], [2]] = 2 ∧ 0 < [[(0 : ℚ)], [2]].length ∧ 0 < shape1 [[(0 : ℚ)], [2]]
    ∧ 0 ≤ Backend.sqrt ⟨id, id⟩ (colVar [[(0 : ℚ)], [2]] 0)
    ∧ Backend.sqrt ⟨id, id⟩ (colVar [[(0 : ℚ)], [2]] 0)
        * Backend.sqrt ⟨id, id⟩ (colVar [[(0 : ℚ)], [2]] 0)
        = colVar [[(0 : ℚ)], [2]] 0
    ∧ (0 : ℚ) ≤ 2 ∧ (([[(0 : ℚ)], [2]].length : ℚ)) ≤ 2 * 2
    ∧ |entry ((Scaler.fitted ⟨id, id⟩ [[(0 : ℚ)], [2]]).inverse_transform
          ((Scaler.fitted ⟨id, id⟩ [[(0 : ℚ)], [2]]).transform [[(0 : ℚ)], [2]])) 0 0
        - entry [[(0 : ℚ)], [2]] 0 0|
      ≤ scalerEps * |entry [[(0 : ℚ)], [2]] 0 0| + scalerEps * 2 := by
  have hvar : colVar [[(0 : ℚ)], [2]] 0 = 1 := by
    norm_num [colVar, colMean]
  refine ⟨by decide, by decide, by decide, ?_, ?_, by norm_num, by norm_num, ?_⟩
  · rw [hvar]; norm_num [Backend.sqrt]
  · rw [hvar]; norm_num [Backend.sqrt]
  · exact scaler_round_trip_bound ⟨id, id⟩ [[(0 : ℚ)], [2]] 0 0 2 (by decide)
      (by decide) (by decide)
      (by rw [hvar]; norm_num [Backend.sqrt])
      (by rw [hvar]; norm_num [Backend.sqrt])
      (by norm_num) (by norm_num)

/-- Witness for C3 on a concrete 2x3 map: the hypotheses hold for
`Som.new [2, 3]` at indices 1 and 5, and the grid entries satisfy the
claimed formula, symmetry and zero diagonal. -/
theorem distance_grid_formula_witness :
    (Som.new [2, 3] 1 (0 : ℚ) .expo .expo none npMin).map_dimensions = [2, 3]
    ∧ (Som.new [2, 3] 1 (0 : ℚ) .expo .expo none npMin).weight_dim = 2 * 3
    ∧ (1 : Nat) < 2 * 3 ∧ (5 : Nat) < 2 * 3
    ∧ (gridEntry (Som.new [2, 3] 1 (0 : ℚ) .expo .expo none npMin) 1 5
        = (((1 / 3 : Nat) : ℤ) - ((5 / 3 : Nat) : ℤ)) ^ 2
          + (((1 % 3 : Nat) : ℤ) - ((5 % 3 : Nat) : ℤ)) ^ 2
      ∧ gridEntry (Som.new [2, 3] 1 (0 : ℚ) .expo .expo none npMin) 1 5
          = gridEntry (Som.new [2, 3] 1 (0 : ℚ) .expo .expo none npMin) 5 1
      ∧ gridEntry (Som.new [2, 3] 1 (0 : ℚ) .expo .expo none npMin) 1 1 = 0) :=
  ⟨rfl, rfl, by omega, by omega,
    distance_grid_formula _ 2 3 1 5 rfl rfl (by omega) (by omega)⟩

theorem mat_ext {A D : Mat α} {r c : Nat} (hA : MatWf A r c) (hD : MatWf D r c)
    (h : ∀ u f, u < r → f < c → entry A u f = entry D u f) : A = D := by
  apply List.ext_getElem
  · rw [hA.1, hD.1]
  · intro i h1 h2
    apply List.ext_getElem
    · rw [hA.2 _ (List.getElem_mem _), hD.2 _ (List.getElem_mem _)]
    · intro j hj1 hj2
      have hi : i < r := by rw [← hA.1]; exact h1
      have hj : j < c := by
        rw [← hA.2 (A[i]) (List.getElem_mem _)]
        exact hj1
      have he := h i j hi hj
      unfold entry at he
      rw [List.getD_eq_getElem A [] h1, List.getD_eq_getElem D [] h2] at he
      rw [List.getD_eq_getElem _ _ hj1, List.getD_eq_getElem _ _ hj2] at he
      exact he

theorem sum_map_const_nat {β : Type} (l : List β) (f : β → Nat) (c : Nat)
    (h : ∀ x ∈ l, f x = c) : (l.map f).sum = l.length * c := by
  induction l with
  | nil => simp
  | cons a t ih =>
    rw [List.map_cons, List.sum_cons, ih (fun x hx => h x (List.mem_cons_of_mem a hx)),
      h a (List.mem_cons_self a t), List.length_cons, Nat.succ_mul]
    omega

theorem flatten_length_uniform {β : Type} (L : List (List β)) (w h : Nat)
    (hL : L.length = w) (hr : ∀ r ∈ L, r.length = h) : L.flatten.length = w * h := by
  rw [List.length_flatten, sum_map_const_nat L List.length h hr, hL]

theorem range_one_eq : List.range 1 = [0] := by
  rw [List.range_succ, List.range_zero, List.nil_append]

theorem check_input_ok (m : Som α) (X : Mat α) (h : m.check_input X = .ok ()) :
    ndim X = 2 ∧ shape1 X = m.data_dim := by
  unfold Som.check_input at h
  by_cases h1 : ndim X ≠ 2
  · rw [if_pos h1] at h
    exact absurd h (by simp)
  · rw [if_neg h1] at h
    by_cases h2 : shape1 X ≠ m.data_dim
    · rw [if_pos h2] at h
      exact absurd h (by simp)
    · exact ⟨not_not.mp h1, not_not.mp h2⟩

theorem zero_not_mem_arangeQ (a b s : ℚ) (ha : 0 < a) (hs : 0 ≤ s) :
    (0 : ℚ) ∉ arangeQ a b s := by
  unfold arangeQ
  intro hmem
  rw [List.mem_map] at hmem
  obtain ⟨k, _, hk⟩ := hmem
  have hks : (0 : ℚ) ≤ (k : ℚ) * s := mul_nonneg (by positivity) hs
  linarith

theorem mScale_wf {M : Mat α} {r c : Nat} (c' : α) (h : MatWf M r c) :
    MatWf (mScale c' M) r c := by
  refine ⟨?_, ?_⟩
  · unfold mScale
    rw [List.length_map, h.1]
  · intro row hrow
    unfold mScale at hrow
    rw [List.mem_map] at hrow
    obtain ⟨row0, hr0, rfl⟩ := hrow
    rw [List.length_map]
    exact h.2 _ hr0

theorem calculate_influence_wf (B : Backend α) (m : Som α) (sigma : α) (w h : Nat)
    (hdim : m.map_dimensions = [w, h])
    (hdg : m.distance_grid = some m.distance_grid_init)
    (hwd : m.weight_dim = w * h) :
    MatWf (m.calculate_influence B sigma) (w * h) (w * h) := by
  unfold Som.calculate_influence
  rw [hdg]
  constructor
  · simp only [Option.getD_some, List.length_map]
    unfold Som.distance_grid_init
    rw [List.length_map, List.length_range, hwd]
  · intro row hrow
    simp only [Option.getD_some, List.mem_map] at hrow
    obtain ⟨g2, hg2, rfl⟩ := hrow
    obtain ⟨g, hg, rfl⟩ := hg2
    unfold Som.distance_grid_init at hg
    rw [List.mem_map] at hg
    obtain ⟨i, _, rfl⟩ := hg
    have hsh := grid_distance_shape m w h i hdim
    apply flatten_length_uniform _ w h
    · rw [List.length_map]
      exact hsh.1
    · intro rr hrr
      rw [List.mem_map] at hrr
      obtain ⟨rr0, hrr0, rfl⟩ := hrr
      rw [List.length_map]
      exact hsh.2 _ hrr0

theorem random_seed_wf (rand : Nat → Nat → α) (m : Som α) (Xs : Mat α) :
    MatWf (random_seed rand m Xs) m.weights.length (shape1 Xs) := by
  unfold random_seed
  constructor
  · simp
  · intro row hrow
    rw [List.mem_map] at hrow
    obtain ⟨u, _, rfl⟩ := hrow
    simp

theorem shape1_of_wf {M : Mat α} {r c : Nat} (h : MatWf M r c) (hr : 0 < r) :
    shape1 M = c := by
  cases hM : M with
  | nil =>
    rw [hM] at h
    have := h.1
    simp at this
    omega
  | cons a t =>
    unfold shape1
    simp only [List.headD_cons]
    refine h.2 a ?_
    rw [hM]
    exact List.mem_cons_self a t

theorem argMaxRow_lt : ∀ (l : List α), l ≠ [] → (argMaxRow l).2 < l.length
  | [], hl => absurd rfl hl
  | [a], _ => by simp [argMaxRow]
  | a :: b :: t, _ => by
    have ih := argMaxRow_lt (b :: t) (by simp)
    simp only [argMaxRow]
    split
    · simp
    · show (argMaxRow (b :: t)).2 + 1 < (a :: b :: t).length
      simp only [List.length_cons] at ih ⊢
      omega

theorem create_batches_single (X : Mat α) (hpos : 0 < X.length) :
    create_batches id X X.length true = [X] := by
  simp only [create_batches, id_eq, if_true]
  rw [ite_self]
  have hmx : (X.length + X.length - 1) / X.length = 1 :=
    Nat.div_eq_of_lt_le (by omega) (by omega)
  rw [hmx, one_mul]
  have hres : resizeRows X X.length (shape1 X) = X := by
    unfold resizeRows
    rw [List.take_length, Nat.sub_self, List.replicate_zero, List.append_nil]
  rw [hres]
  unfold chunkList
  rw [Nat.div_self hpos, range_one_eq]
  simp only [List.map_cons, List.map_nil]
  rw [Nat.zero_mul, List.drop_zero, List.take_length]

theorem propagate_zero {wd dim : Nat} (m : Som α) (B : Backend α) (x : Mat α)
    (I : Mat α)
    (hW : MatWf m.weights wd dim) (hwd : 0 < wd)
    (hI : MatWf I wd wd) (hIz : ∀ u f, entry I u f = 0)
    (hxr : ∀ r ∈ x, r.length = dim) (hxne : x ≠ [])
    (hsel : ∀ r : List α, r.length = wd → (m.min_max r).2 < wd) :
    (m.propagate B x I).1 = m := by
  have hbsz : 0 < x.length := List.length_pos.mpr hxne
  have hact_eq : (m.forward B x).1 = x.map (fun xi => actRow B xi m.weights) :=
    forward_rows m B x
  have hact_len : ((m.forward B x).1).length = x.length := by
    rw [hact_eq]
    simp
  have hact_rows : ∀ r ∈ (m.forward B x).1, r.length = wd := by
    intro r hr
    rw [hact_eq, List.mem_map] at hr
    obtain ⟨xb, _, rfl⟩ := hr
    unfold actRow
    rw [List.length_map]
    exact hW.1
  have hdiff2 : (m.forward B x).2 = distance_difference x m.weights := rfl
  have hdiff_len : ((m.forward B x).2).length = x.length := by
    rw [hdiff2]
    unfold distance_difference
    simp
  have hdiffm : ∀ M ∈ (m.forward B x).2, MatWf M wd dim := by
    intro M hM
    rw [hdiff2] at hM
    unfold distance_difference at hM
    rw [List.mem_map] at hM
    obtain ⟨xb, hxb, rfl⟩ := hM
    constructor
    · rw [List.length_map]
      exact hW.1
    · intro row hrow
      rw [List.mem_map] at hrow
      obtain ⟨wv, hwv, rfl⟩ := hrow
      rw [List.length_zipWith, hxr _ hxb, hW.2 _ hwv]
      exact Nat.min_self dim
  have hbmu : ∀ b < x.length, (m.min_max (((m.forward B x).1).getD b [])).2 < wd := by
    intro b hb
    apply hsel
    apply hact_rows
    rw [List.getD_eq_getElem _ _ (by rw [hact_len]; omega)]
    exact List.getElem_mem _
  have h := backward_formula m (m.forward B x).2 I (m.forward B x).1 wd dim x.length
    hW hI hact_len hact_rows hdiff_len hdiffm hbsz hwd hbmu
  have hweq : (m.backward (m.forward B x).2 I (m.forward B x).1).weights
      = m.weights := by
    refine mat_ext h.2 hW ?_
    intro u f hu hf
    rw [h.1 u f hu hf]
    have hz : ((List.range x.length).map (fun b =>
        entry3 (m.forward B x).2 b u f
          * entry I (m.min_max (((m.forward B x).1).getD b [])).2 u)).sum = 0 := by
      apply List.sum_eq_zero
      intro y hy
      rw [List.mem_map] at hy
      obtain ⟨b, _, rfl⟩ := hy
      rw [hIz, mul_zero]
    rw [hz, zero_div, add_zero]
  have key : (m.propagate B x I).1
      = { m with weights :=
            (m.backward (m.forward B x).2 I (m.forward B x).1).weights } := rfl
  rw [key, hweq]

theorem batch_step_zero {wd dim : Nat} (B : Backend α) (nbSteps lrSteps : List ℚ)
    (n : Nat) (s : TrainState α) (x : Mat α)
    (hW : MatWf s.model.weights wd dim) (hwd : 0 < wd)
    (hI : MatWf s.influences wd wd) (hIz : ∀ u f, entry s.influences u f = 0)
    (hxr : ∀ r ∈ x, r.length = dim) (hxne : x ≠ [])
    (hsel : ∀ r : List α, r.length = wd → (s.model.min_max r).2 < wd)
    (hidx : s.idx = 0) (hnp : s.num_processed = 0)
    (hnb : (0 : ℚ) ∉ nbSteps) (hlr : (0 : ℚ) ∉ lrSteps) :
    batch_step B nbSteps lrSteps n n s x
      = { s with idx := 1, num_processed := n } := by
  have hnb2 : ¬ (((s.idx : ℚ)) ∈ nbSteps) := by
    rw [hidx]
    simpa using hnb
  have hlr2 : ¬ (((s.idx : ℚ)) ∈ lrSteps) := by
    rw [hidx]
    simpa using hlr
  have hcut : ¬ (n < s.num_processed + n) := by omega
  simp only [batch_step]
  rw [if_neg hcut, if_neg hnb2, if_neg hlr2,
    propagate_zero s.model B x s.influences hW hwd hI hIz hxr hxne hsel]
  rw [hidx, hnp]
  simp only [Nat.zero_add]

theorem run_epoch_zero {wd dim : Nat} (B : Backend α) (X : Mat α)
    (nbSteps lrSteps : List ℚ) (s0 : TrainState α)
    (hW : MatWf s0.model.weights wd dim) (hwd : 0 < wd)
    (hI : MatWf s0.influences wd wd) (hIz : ∀ u f, entry s0.influences u f = 0)
    (hXr : ∀ r ∈ X, r.length = dim) (hXne : X ≠ [])
    (hsel : ∀ r : List α, r.length = wd → (s0.model.min_max r).2 < wd)
    (hidx : s0.idx = 0)
    (hnb : (0 : ℚ) ∉ nbSteps) (hlr : (0 : ℚ) ∉ lrSteps) :
    run_epoch B id X nbSteps lrSteps X.length s0
      = { s0 with
          learning_rate := SchedTag.eval B s0.model.lrfunc s0.model.learning_rate
            s0.lr_step lrSteps.length,
          idx := 1,
          num_processed := X.length } := by
  have hn : 0 < X.length := List.length_pos.mpr hXne
  simp only [run_epoch]
  rw [create_batches_single X hn]
  simp only [List.foldl_cons, List.foldl_nil]
  rw [batch_step_zero B nbSteps lrSteps X.length _ X]
  · exact hW
  · exact hwd
  · exact hI
  · exact hIz
  · exact hXr
  · exact hXne
  · exact hsel
  · exact hidx
  · rfl
  · exact hnb
  · exact hlr

theorem ite_false_bool {β : Type} (a b : β) : (if (false : Bool) then a else b) = b := rfl

theorem fit_one_epoch_zero {w h : Nat} (m : Som α) (B : Backend α)
    (pca2 : Mat α → Mat α × List α) (rand : Nat → Nat → α)
    (shuffles : Nat → Mat α → Mat α) (X : Mat α)
    (hok : m.check_input X = .ok ())
    (hsh : shuffles 1 = id)
    (hlr0 : ∀ t : Nat, SchedTag.eval B m.lrfunc m.learning_rate 0 t = 0)
    (hdim : m.map_dimensions = [w, h]) (hwpos : 0 < w * h)
    (hwd : m.weight_dim = w * h) (hwlen : m.weights.length = w * h)
    (hsel : ∀ r : List α, r.length = w * h → (m.min_max r).2 < w * h) :
    Som.fit m B pca2 rand shuffles X 1 false 50 1 1 X.length false
      = ({ m with
            scaler := Scaler.fitted B X,
            weights := Scaler.inverse_transform (Scaler.fitted B X)
              (random_seed rand m ((Scaler.fitted B X).transform X)),
            distance_grid := some m.distance_grid_init,
            trained := true },
         Except.ok ()) := by
  obtain ⟨hX2, hsh1⟩ := check_input_ok m X hok
  obtain ⟨hXne, hXrows⟩ := ndim_eq_two hX2
  have hnpos : 0 < X.length := List.length_pos.mpr hXne
  have hXs_len : ((Scaler.fitted B X).transform X).length = X.length :=
    transform_length (Scaler.fitted B X) X
  have hXs_ne : (Scaler.fitted B X).transform X ≠ [] := by
    intro hz
    have h2 := hXs_len
    rw [hz] at h2
    simp at h2
    omega
  have hXs_rows : ∀ r ∈ (Scaler.fitted B X).transform X, r.length = m.data_dim := by
    intro r hr
    rw [List.mem_iff_getElem] at hr
    obtain ⟨i, hi, rfl⟩ := hr
    have hi2 : i < X.length := by
      rw [← hXs_len]
      exact hi
    rw [← List.getD_eq_getElem _ [] hi]
    rw [transform_row_length (Scaler.fitted B X) X i hi2]
    rw [← hsh1]
    apply hXrows
    rw [List.getD_eq_getElem _ _ hi2]
    exact List.getElem_mem _
  have hsh1T : shape1 ((Scaler.fitted B X).transform X) = m.data_dim := by
    rw [shape1_transform]
    exact hsh1
  have hW0 : MatWf (random_seed rand { m with scaler := Scaler.fitted B X }
      ((Scaler.fitted B X).transform X)) (w * h) m.data_dim := by
    have h0 : MatWf (random_seed rand { m with scaler := Scaler.fitted B X }
        ((Scaler.fitted B X).transform X)) m.weights.length
        (shape1 ((Scaler.fitted B X).transform X)) :=
      random_seed_wf rand { m with scaler := Scaler.fitted B X }
        ((Scaler.fitted B X).transform X)
    rw [hwlen, hsh1T] at h0
    exact h0
  have hpr1 : (Scaler.fit_transform B X).1 = Scaler.fitted B X := rfl
  have hpr2 : (Scaler.fit_transform B X).2 = (Scaler.fitted B X).transform X := rfl
  simp only [Som.fit, hok, ite_false_bool]
  rw [hpr1, hpr2]
  have hbs : (if X.length > ((Scaler.fitted B X).transform X).length
      then ((Scaler.fitted B X).transform X).length else X.length)
      = ((Scaler.fitted B X).transform X).length := by
    by_cases hc : X.length > ((Scaler.fitted B X).transform X).length
    · rw [if_pos hc]
    · rw [if_neg hc, hXs_len]
  rw [hbs, range_one_eq]
  simp only [List.foldl_cons, List.foldl_nil]
  rw [show shuffles (0 + 1) = id from hsh]
  rw [run_epoch_zero]
  · rfl
  · exact hW0
  · exact hwpos
  · exact mScale_wf _ (calculate_influence_wf B _ _ w h hdim rfl hwd)
  · intro u f
    rw [entry_mScale, hlr0, zero_mul]
  · exact hXs_rows
  · exact hXs_ne
  · exact hsel
  · rfl
  · exact zero_not_mem_arangeQ _ _ _
      (lt_of_lt_of_le zero_lt_one (le_max_right _ 1))
      (le_of_lt (lt_of_lt_of_le zero_lt_one (le_max_right _ 1)))
  · exact zero_not_mem_arangeQ _ _ _
      (lt_of_lt_of_le zero_lt_one (le_max_right _ 1))
      (le_of_lt (lt_of_lt_of_le zero_lt_one (le_max_right _ 1)))

theorem fitted_eval_cex :
    Scaler.fitted (⟨id, id⟩ : Backend ℚ) [[(0 : ℚ)], [2]] = ⟨[1], [1], true⟩ := by
  have hsh : shape1 ([[(0 : ℚ)], [2]] : Mat ℚ) = 1 := rfl
  unfold Scaler.fitted
  rw [hsh, range_one_eq]
  norm_num [colMean, colVar]

theorem transform_eval_cex :
    Scaler.transform (⟨[1], [1], true⟩ : Scaler ℚ) [[(0 : ℚ)], [2]]
      = [[-(100000 / 100001)], [100000 / 100001]] := by
  unfold Scaler.transform
  norm_num [List.enum, List.enumFrom, scalerEps]

theorem seed_eval_cex5 :
    random_seed (fun _ _ => (1 : ℚ) / 2)
      (Som.new [1, 1] 1 (0 : ℚ) (SchedTag.custom (fun _ _ _ => 0))
        (SchedTag.custom (fun v _ _ => v)) none npMin)
      [[-(100000 / 100001)], [100000 / 100001]]
      = [[50000 / 100001]] := by
  unfold random_seed
  norm_num [shape1, colMin, colMax, Som.new, range_one_eq, min_def, max_def,
    List.foldl_cons, List.foldl_nil]

theorem inv_eval_cex5 :
    Scaler.inverse_transform (⟨[1], [1], true⟩ : Scaler ℚ) [[(50000 : ℚ) / 100001]]
      = [[150001 / 100001]] := by
  unfold Scaler.inverse_transform
  norm_num [List.enum, List.enumFrom]

theorem fit_eval_cex5 :
    Som.fit (Som.new [1, 1] 1 (0 : ℚ) (SchedTag.custom (fun _ _ _ => 0))
        (SchedTag.custom (fun v _ _ => v)) none npMin) ⟨id, id⟩
      (fun _ => ([], [])) (fun _ _ => (1 : ℚ) / 2) (fun _ x => x) [[(0 : ℚ)], [2]]
      1 false 50 1 1 2 false
      = ({ Som.new [1, 1] 1 (0 : ℚ) (SchedTag.custom (fun _ _ _ => 0))
            (SchedTag.custom (fun v _ _ => v)) none npMin with
            scaler := ⟨[1], [1], true⟩,
            weights := [[150001 / 100001]],
            distance_grid := some (Som.distance_grid_init (Som.new [1, 1] 1 (0 : ℚ)
              (SchedTag.custom (fun _ _ _ => 0))
              (SchedTag.custom (fun v _ _ => v)) none npMin)),
            trained := true },
         Except.ok ()) := by
  have hsel0 : ∀ r : List ℚ, r.length = 1 * 1 →
      ((Som.new [1, 1] 1 (0 : ℚ) (SchedTag.custom (fun _ _ _ => 0))
        (SchedTag.custom (fun v _ _ => v)) none npMin).min_max r).2 < 1 * 1 := by
    intro r hr
    have hne : r ≠ [] := by
      intro hz
      rw [hz] at hr
      simp at hr
    have h1 := (npMin_spec r hne).1
    show (npMin r).2 < 1 * 1
    omega
  have hfit := @fit_one_epoch_zero ℚ _ 1 1
    (Som.new [1, 1] 1 (0 : ℚ) (SchedTag.custom (fun _ _ _ => 0))
      (SchedTag.custom (fun v _ _ => v)) none npMin) ⟨id, id⟩
    (fun _ => ([], [])) (fun _ _ => (1 : ℚ) / 2) (fun _ x => x) [[(0 : ℚ)], [2]]
    rfl rfl (fun t => rfl) rfl (by omega) rfl rfl hsel0
  have hfit2 : Som.fit (Som.new [1, 1] 1 (0 : ℚ) (SchedTag.custom (fun _ _ _ => 0))
        (SchedTag.custom (fun v _ _ => v)) none npMin) ⟨id, id⟩
      (fun _ => ([], [])) (fun _ _ => (1 : ℚ) / 2) (fun _ x => x) [[(0 : ℚ)], [2]]
      1 false 50 1 1 2 false
      = ({ Som.new [1, 1] 1 (0 : ℚ) (SchedTag.custom (fun _ _ _ => 0))
            (SchedTag.custom (fun v _ _ => v)) none npMin with
            scaler := Scaler.fitted ⟨id, id⟩ [[(0 : ℚ)], [2]],
            weights := Scaler.inverse_transform (Scaler.fitted ⟨id, id⟩ [[(0 : ℚ)], [2]])
              (random_seed (fun _ _ => (1 : ℚ) / 2)
                (Som.new [1, 1] 1 (0 : ℚ) (SchedTag.custom (fun _ _ _ => 0))
                  (SchedTag.custom (fun v _ _ => v)) none npMin)
                ((Scaler.fitted ⟨id, id⟩ [[(0 : ℚ)], [2]]).transform [[(0 : ℚ)], [2]])),
            distance_grid := some (Som.distance_grid_init (Som.new [1, 1] 1 (0 : ℚ)
              (SchedTag.custom (fun _ _ _ => 0))
              (SchedTag.custom (fun v _ _ => v)) none npMin)),
            trained := true },
         Except.ok ()) := hfit
  rw [hfit2, fitted_eval_cex, transform_eval_cex, seed_eval_cex5, inv_eval_cex5]

/-- C5 (amended): `map_weights` returns the 3-D grid of shape
`(height, width, data_dim)` — the transpose axes are `(row, col)` with
`row = index % height` ranging over the FIRST output axis — whose `(a, b)`
cell is row `b * height + a` of `inverse_transform(weights)`.  Because `fit`
already stores unscaled weights (line 286 applies `inverse_transform`
before assignment), the values returned by `map_weights` are the stored
weight vectors passed through `inverse_transform` a second time, not the
values held in the weight matrix at the end of fit. -/
theorem map_weights_formula (m : Som α) (w h dim : Nat)
    (hdim : m.map_dimensions = [w, h]) (hh : 0 < h)
    (hL : (m.scaler.inverse_transform m.weights).length = w * h) :
    m.map_weights.length = h
    ∧ (∀ r ∈ m.map_weights, r.length = w)
    ∧ ∀ a b, a < h → b < w →
        (m.map_weights.getD a []).getD b []
          = (m.scaler.inverse_transform m.weights).getD (b * h + a) [] := by
  have hgw : ([w, h] : List Nat).getD 0 0 = w := rfl
  have hgh : ([w, h] : List Nat).getD 1 0 = h := rfl
  simp only [Som.map_weights, hdim, hgw, hgh]
  refine ⟨by simp, ?_, ?_⟩
  · intro r hr
    rw [List.mem_map] at hr
    obtain ⟨a, _, rfl⟩ := hr
    simp
  · intro a b ha hb
    rw [getD_range_map _ _ _ _ ha, getD_range_map _ _ _ _ hb]
    rw [getD_chunkList h _ b (by rw [hL, Nat.mul_div_cancel _ hh]; exact hb)]
    rw [getD_take_of_lt _ _ _ _ ha, getD_drop_add]

/-- Witness for C5's amended theorem: the hypotheses hold for a fresh
`[1, 2]` map, and `map_weights` satisfies the shape and entry formula
there. -/
theorem map_weights_formula_witness :
    (Som.new [1, 2] 1 (0 : ℚ) .expo .expo none npMin).map_dimensions = [1, 2]
    ∧ (0 : Nat) < 2
    ∧ ((Som.new [1, 2] 1 (0 : ℚ) .expo .expo none npMin).scaler.inverse_transform
        (Som.new [1, 2] 1 (0 : ℚ) .expo .expo none npMin).weights).length = 1 * 2
    ∧ ((Som.new [1, 2] 1 (0 : ℚ) .expo .expo none npMin).map_weights.length = 2
      ∧ (∀ r ∈ (Som.new [1, 2] 1 (0 : ℚ) .expo .expo none npMin).map_weights,
          r.length = 1)
      ∧ ∀ a b, a < 2 → b < 1 →
          (((Som.new [1, 2] 1 (0 : ℚ) .expo .expo none npMin).map_weights.getD
              a []).getD b [])
            = ((Som.new [1, 2] 1 (0 : ℚ) .expo .expo none npMin).scaler.inverse_transform
                (Som.new [1, 2] 1 (0 : ℚ) .expo .expo none npMin).weights).getD
                (b * 2 + a) []) :=
  ⟨rfl, by omega, rfl, map_weights_formula _ 1 2 1 rfl (by omega) rfl⟩

/-- Counterexample for C5 as stated: a completed `fit` run on
`X = [[0], [2]]` (one unit, one feature, zero learning rate) ends with the
weight matrix `[[150001/100001]]` — already in original feature units —
but `map_weights` returns `[[[250002/100001]]]`: the stored weight vector
pushed through `inverse_transform` a second time (`x * 1 + 1`), not "the
same values held in the weight matrix at the end of fit" reshaped. -/
theorem map_weights_double_unscale_cex :
    (Som.fit (Som.new [1, 1] 1 (0 : ℚ) (SchedTag.custom (fun _ _ _ => 0))
        (SchedTag.custom (fun v _ _ => v)) none npMin) ⟨id, id⟩
      (fun _ => ([], [])) (fun _ _ => (1 : ℚ) / 2) (fun _ x => x) [[(0 : ℚ)], [2]]
      1 false 50 1 1 2 false).2 = Except.ok ()
    ∧ (Som.fit (Som.new [1, 1] 1 (0 : ℚ) (SchedTag.custom (fun _ _ _ => 0))
        (SchedTag.custom (fun v _ _ => v)) none npMin) ⟨id, id⟩
      (fun _ => ([], [])) (fun _ _ => (1 : ℚ) / 2) (fun _ x => x) [[(0 : ℚ)], [2]]
      1 false 50 1 1 2 false).1.trained = true
    ∧ (Som.fit (Som.new [1, 1] 1 (0 : ℚ) (SchedTag.custom (fun _ _ _ => 0))
        (SchedTag.custom (fun v _ _ => v)) none npMin) ⟨id, id⟩
      (fun _ => ([], [])) (fun _ _ => (1 : ℚ) / 2) (fun _ x => x) [[(0 : ℚ)], [2]]
      1 false 50 1 1 2 false).1.weights = [[150001 / 100001]]
    ∧ Som.map_weights (Som.fit (Som.new [1, 1] 1 (0 : ℚ)
        (SchedTag.custom (fun _ _ _ => 0))
        (SchedTag.custom (fun v _ _ => v)) none npMin) ⟨id, id⟩
      (fun _ => ([], [])) (fun _ _ => (1 : ℚ) / 2) (fun _ x => x) [[(0 : ℚ)], [2]]
      1 false 50 1 1 2 false).1 = [[[250002 / 100001]]]
    ∧ Som.map_weights (Som.fit (Som.new [1, 1] 1 (0 : ℚ)
        (SchedTag.custom (fun _ _ _ => 0))
        (SchedTag.custom (fun v _ _ => v)) none npMin) ⟨id, id⟩
      (fun _ => ([], [])) (fun _ _ => (1 : ℚ) / 2) (fun _ x => x) [[(0 : ℚ)], [2]]
      1 false 50 1 1 2 false).1
      ≠ [[(Som.fit (Som.new [1, 1] 1 (0 : ℚ) (SchedTag.custom (fun _ _ _ => 0))
        (SchedTag.custom (fun v _ _ => v)) none npMin) ⟨id, id⟩
      (fun _ => ([], [])) (fun _ _ => (1 : ℚ) / 2) (fun _ x => x) [[(0 : ℚ)], [2]]
      1 false 50 1 1 2 false).1.weights.getD 0 []]] := by
  have h2 := fit_eval_cex5
  have hw : (Som.fit (Som.new [1, 1] 1 (0 : ℚ) (SchedTag.custom (fun _ _ _ => 0))
        (SchedTag.custom (fun v _ _ => v)) none npMin) ⟨id, id⟩
      (fun _ => ([], [])) (fun _ _ => (1 : ℚ) / 2) (fun _ x => x) [[(0 : ℚ)], [2]]
      1 false 50 1 1 2 false).1.weights = [[(150001 : ℚ) / 100001]] := by
    rw [h2]
  have hmw : Som.map_weights (Som.fit (Som.new [1, 1] 1 (0 : ℚ)
        (SchedTag.custom (fun _ _ _ => 0))
        (SchedTag.custom (fun v _ _ => v)) none npMin) ⟨id, id⟩
      (fun _ => ([], [])) (fun _ _ => (1 : ℚ) / 2) (fun _ x => x) [[(0 : ℚ)], [2]]
      1 false 50 1 1 2 false).1 = [[[(250002 : ℚ) / 100001]]] := by
    rw [h2]
    unfold Som.map_weights
    norm_num [Som.new, chunkList, natListMax, Scaler.inverse_transform,
      List.enum, List.enumFrom, range_one_eq]
  refine ⟨by rw [h2], by rw [h2], hw, hmw, ?_⟩
  rw [hmw, hw]
  simp only [List.getD_cons_zero, ne_eq, List.cons.injEq, and_true]
  norm_num

theorem predict_congr (m1 m2 : Som α) (B : Backend α) (X : Mat α) (bs : Nat)
    (hw : m1.weights = m2.weights) (hwd : m1.weight_dim = m2.weight_dim)
    (hdd : m1.data_dim = m2.data_dim) (hmm : m1.min_max = m2.min_max) :
    m1.predict B X bs = m2.predict B X bs := by
  have hc : m1.check_input X = m2.check_input X := by
    unfold Som.check_input
    rw [hdd]
  simp only [Som.predict, Som.predict_base]
  rw [hc]
  cases hE : m2.check_input X with
  | error e => rfl
  | ok u => simp only [Som.forward, hw, hwd, hmm]

theorem seed_eval_cex9 :
    random_seed (fun u _ => if u = 0 then (0 : ℚ) else 1 / 2)
      (Som.new [1, 2] 1 (0 : ℚ) (SchedTag.custom (fun _ _ _ => 0))
        (SchedTag.custom (fun v _ _ => v)) none argMaxRow)
      [[-(100000 / 100001)], [100000 / 100001]]
      = [[0], [50000 / 100001]] := by
  unfold random_seed
  norm_num [shape1, colMin, colMax, Som.new, range_one_eq, min_def, max_def,
    List.foldl_cons, List.foldl_nil, List.range_succ]

theorem inv_eval_cex9 :
    Scaler.inverse_transform (⟨[1], [1], true⟩ : Scaler ℚ)
      [[(0 : ℚ)], [50000 / 100001]]
      = [[1], [150001 / 100001]] := by
  unfold Scaler.inverse_transform
  norm_num [List.enum, List.enumFrom]

theorem fit_eval_cex9 :
    Som.fit (Som.new [1, 2] 1 (0 : ℚ) (SchedTag.custom (fun _ _ _ => 0))
        (SchedTag.custom (fun v _ _ => v)) none argMaxRow) ⟨id, id⟩
      (fun _ => ([], [])) (fun u _ => if u = 0 then (0 : ℚ) else 1 / 2)
      (fun _ x => x) [[(0 : ℚ)], [2]] 1 false 50 1 1 2 false
      = ({ Som.new [1, 2] 1 (0 : ℚ) (SchedTag.custom (fun _ _ _ => 0))
            (SchedTag.custom (fun v _ _ => v)) none argMaxRow with
            scaler := ⟨[1], [1], true⟩,
            weights := [[1], [150001 / 100001]],
            distance_grid := some (Som.distance_grid_init (Som.new [1, 2] 1 (0 : ℚ)
              (SchedTag.custom (fun _ _ _ => 0))
              (SchedTag.custom (fun v _ _ => v)) none argMaxRow)),
            trained := true },
         Except.ok ()) := by
  have hsel0 : ∀ r : List ℚ, r.length = 1 * 2 →
      ((Som.new [1, 2] 1 (0 : ℚ) (SchedTag.custom (fun _ _ _ => 0))
        (SchedTag.custom (fun v _ _ => v)) none argMaxRow).min_max r).2 < 1 * 2 := by
    intro r hr
    have hne : r ≠ [] := by
      intro hz
      rw [hz] at hr
      simp at hr
    have h1 := argMaxRow_lt r hne
    show (argMaxRow r).2 < 1 * 2
    omega
  have hfit := @fit_one_epoch_zero ℚ _ 1 2
    (Som.new [1, 2] 1 (0 : ℚ) (SchedTag.custom (fun _ _ _ => 0))
      (SchedTag.custom (fun v _ _ => v)) none argMaxRow) ⟨id, id⟩
    (fun _ => ([], [])) (fun u _ => if u = 0 then (0 : ℚ) else 1 / 2)
    (fun _ x => x) [[(0 : ℚ)], [2]]
    rfl rfl (fun t => rfl) rfl (by omega) rfl rfl hsel0
  have hfit2 : Som.fit (Som.new [1, 2] 1 (0 : ℚ) (SchedTag.custom (fun _ _ _ => 0))
        (SchedTag.custom (fun v _ _ => v)) none argMaxRow) ⟨id, id⟩
      (fun _ => ([], [])) (fun u _ => if u = 0 then (0 : ℚ) else 1 / 2)
      (fun _ x => x) [[(0 : ℚ)], [2]] 1 false 50 1 1 2 false
      = ({ Som.new [1, 2] 1 (0 : ℚ) (SchedTag.custom (fun _ _ _ => 0))
            (SchedTag.custom (fun v _ _ => v)) none argMaxRow with
            scaler := Scaler.fitted ⟨id, id⟩ [[(0 : ℚ)], [2]],
            weights := Scaler.inverse_transform (Scaler.fitted ⟨id, id⟩ [[(0 : ℚ)], [2]])
              (random_seed (fun u _ => if u = 0 then (0 : ℚ) else 1 / 2)
                (Som.new [1, 2] 1 (0 : ℚ) (SchedTag.custom (fun _ _ _ => 0))
                  (SchedTag.custom (fun v _ _ => v)) none argMaxRow)
                ((Scaler.fitted ⟨id, id⟩ [[(0 : ℚ)], [2]]).transform [[(0 : ℚ)], [2]])),
            distance_grid := some (Som.distance_grid_init (Som.new [1, 2] 1 (0 : ℚ)
              (SchedTag.custom (fun _ _ _ => 0))
              (SchedTag.custom (fun v _ _ => v)) none argMaxRow)),
            trained := true },
         Except.ok ()) := hfit
  rw [hfit2, fitted_eval_cex, transform_eval_cex, seed_eval_cex9, inv_eval_cex9]

theorem act_eval_cex9 :
    actRow (⟨id, id⟩ : Backend ℚ) [1] [[(1 : ℚ)], [150001 / 100001]]
      = [0, 2500000000 / 10000200001] := by
  unfold actRow
  norm_num

theorem argmax_eval_cex9 :
    (argMaxRow [(0 : ℚ), 2500000000 / 10000200001]).2 = 1 := by
  have hq : ¬ ((2500000000 : ℚ) / 10000200001 ≤ 0) := by norm_num
  simp only [argMaxRow]
  rw [if_neg hq]

theorem npmin_eval_cex9 :
    (npMin [(0 : ℚ), 2500000000 / 10000200001]).2 = 0 := by
  have hq : (0 : ℚ) ≤ 2500000000 / 10000200001 := by norm_num
  simp only [npMin]
  rw [if_pos hq]

theorem predict_trained_eval_cex9 :
    Som.predict ({ Som.new [1, 2] 1 (0 : ℚ) (SchedTag.custom (fun _ _ _ => 0))
        (SchedTag.custom (fun v _ _ => v)) none argMaxRow with
        scaler := ⟨[1], [1], true⟩,
        weights := [[(1 : ℚ)], [150001 / 100001]],
        distance_grid := some (Som.distance_grid_init (Som.new [1, 2] 1 (0 : ℚ)
          (SchedTag.custom (fun _ _ _ => 0))
          (SchedTag.custom (fun v _ _ => v)) none argMaxRow)),
        trained := true }) ⟨id, id⟩ [[(1 : ℚ)]] 1 = Except.ok [1] := by
  rw [predict_eq_map _ ⟨id, id⟩ [[(1 : ℚ)]] 1 (by decide) (by decide) (by decide)
    (by decide) (by decide)]
  simp only [List.map_cons, List.map_nil]
  show Except.ok [(argMaxRow (actRow ⟨id, id⟩ [1] [[(1 : ℚ)], [150001 / 100001]])).2]
    = Except.ok [1]
  rw [act_eval_cex9, argmax_eval_cex9]

theorem predict_loaded_eval_cex9 :
    Som.predict (Som.load (Som.save ({ Som.new [1, 2] 1 (0 : ℚ)
        (SchedTag.custom (fun _ _ _ => 0))
        (SchedTag.custom (fun v _ _ => v)) none argMaxRow with
        scaler := ⟨[1], [1], true⟩,
        weights := [[(1 : ℚ)], [150001 / 100001]],
        distance_grid := some (Som.distance_grid_init (Som.new [1, 2] 1 (0 : ℚ)
          (SchedTag.custom (fun _ _ _ => 0))
          (SchedTag.custom (fun v _ _ => v)) none argMaxRow)),
        trained := true }))) ⟨id, id⟩ [[(1 : ℚ)]] 1 = Except.ok [0] := by
  rw [predict_eq_map _ ⟨id, id⟩ [[(1 : ℚ)]] 1 (by decide) (by decide) (by decide)
    (by decide) (by decide)]
  simp only [List.map_cons, List.map_nil]
  show Except.ok [(npMin (actRow ⟨id, id⟩ [1] [[(1 : ℚ)], [150001 / 100001]])).2]
    = Except.ok [0]
  rw [act_eval_cex9, npmin_eval_cex9]

/-- C9 (amended): for every model, `load` after `save` reproduces the
weights, map dimensions, learning rate and sigma exactly, round-trips the
schedule-function TAGS identically (`save` writes `'expo'` for the library
`expo` and `'linear'` for any other function, and `load` restores a
function with that same tag — so the persisted tag survives the round trip
even for custom schedules), and marks the model trained; and for a model
whose extremum selector is the default `np_min`, `predict` on the loaded
model agrees with the original on every input.  The `np_min` guard on the
`predict` conjunct is necessary: `load` always rebuilds the model with
`np_min`, discarding a client-plugged arg-max selector, so predictions of
an arg-max model are NOT preserved (see the counterexample). -/
theorem save_load_roundtrip (m : Som α) (B : Backend α) (X : Mat α) (bs : Nat)
    (hwd : m.map_dimensions.foldl (· * ·) 1 = m.weight_dim)
    (hW : MatWf m.weights m.weight_dim m.data_dim)
    (hwpos : 0 < m.weight_dim) :
    (Som.load (Som.save m)).weights = m.weights
    ∧ (Som.load (Som.save m)).map_dimensions = m.map_dimensions
    ∧ (Som.load (Som.save m)).learning_rate = m.learning_rate
    ∧ (Som.load (Som.save m)).sigma = m.sigma
    ∧ SchedTag.tag (Som.load (Som.save m)).lrfunc = SchedTag.tag m.lrfunc
    ∧ SchedTag.tag (Som.load (Som.save m)).nbfunc = SchedTag.tag m.nbfunc
    ∧ (Som.load (Som.save m)).trained = true
    ∧ (m.min_max = npMin →
        (Som.load (Som.save m)).predict B X bs = m.predict B X bs) := by
  have htagrt : ∀ t : SchedTag α,
      SchedTag.tag (schedOfTag (SchedTag.tag t) : SchedTag α) = SchedTag.tag t := by
    intro t
    cases t with
    | expo => rfl
    | linear => rfl
    | custom f => rfl
  have hdd : (Som.load (Som.save m)).data_dim = m.data_dim := by
    have h1 : (Som.load (Som.save m)).data_dim = shape1 m.weights := rfl
    rw [h1, shape1_of_wf hW hwpos]
  have hwde : (Som.load (Som.save m)).weight_dim = m.weight_dim := by
    have h1 : (Som.load (Som.save m)).weight_dim
        = m.map_dimensions.foldl (· * ·) 1 := rfl
    rw [h1, hwd]
  have hpred : m.min_max = npMin →
      (Som.load (Som.save m)).predict B X bs = m.predict B X bs := by
    intro hmm
    apply predict_congr
    · rfl
    · exact hwde
    · exact hdd
    · rw [hmm]
      rfl
  exact ⟨rfl, rfl, rfl, rfl, htagrt m.lrfunc, htagrt m.nbfunc, rfl, hpred⟩

/-- Witness for C9's amended theorem on a `[1, 2]` map with the default
selector, the library `expo` rate schedule and a CUSTOM neighbourhood
schedule (whose tag `'linear'` also survives the round trip). -/
theorem save_load_roundtrip_witness :
    (Som.new [1, 2] 1 (0 : ℚ) .expo (SchedTag.custom (fun v _ _ => v)) none
        npMin).map_dimensions.foldl (· * ·) 1
      = (Som.new [1, 2] 1 (0 : ℚ) .expo (SchedTag.custom (fun v _ _ => v)) none
        npMin).weight_dim
    ∧ MatWf (Som.new [1, 2] 1 (0 : ℚ) .expo (SchedTag.custom (fun v _ _ => v)) none
          npMin).weights
        (Som.new [1, 2] 1 (0 : ℚ) .expo (SchedTag.custom (fun v _ _ => v)) none
          npMin).weight_dim
        (Som.new [1, 2] 1 (0 : ℚ) .expo (SchedTag.custom (fun v _ _ => v)) none
          npMin).data_dim
    ∧ 0 < (Som.new [1, 2] 1 (0 : ℚ) .expo (SchedTag.custom (fun v _ _ => v)) none
        npMin).weight_dim
    ∧ ((Som.load (Som.save (Som.new [1, 2] 1 (0 : ℚ) .expo
          (SchedTag.custom (fun v _ _ => v)) none npMin))).weights
        = (Som.new [1, 2] 1 (0 : ℚ) .expo (SchedTag.custom (fun v _ _ => v)) none
          npMin).weights
      ∧ (Som.load (Som.save (Som.new [1, 2] 1 (0 : ℚ) .expo
          (SchedTag.custom (fun v _ _ => v)) none npMin))).map_dimensions
        = (Som.new [1, 2] 1 (0 : ℚ) .expo (SchedTag.custom (fun v _ _ => v)) none
          npMin).map_dimensions
      ∧ (Som.load (Som.save (Som.new [1, 2] 1 (0 : ℚ) .expo
          (SchedTag.custom (fun v _ _ => v)) none npMin))).learning_rate
        = (Som.new [1, 2] 1 (0 : ℚ) .expo (SchedTag.custom (fun v _ _ => v)) none
          npMin).learning_rate
      ∧ (Som.load (Som.save (Som.new [1, 2] 1 (0 : ℚ) .expo
          (SchedTag.custom (fun v _ _ => v)) none npMin))).sigma
        = (Som.new [1, 2] 1 (0 : ℚ) .expo (SchedTag.custom (fun v _ _ => v)) none
          npMin).sigma
      ∧ SchedTag.tag (Som.load (Som.save (Som.new [1, 2] 1 (0 : ℚ) .expo
          (SchedTag.custom (fun v _ _ => v)) none npMin))).lrfunc
        = SchedTag.tag (Som.new [1, 2] 1 (0 : ℚ) .expo
          (SchedTag.custom (fun v _ _ => v)) none npMin).lrfunc
      ∧ SchedTag.tag (Som.load (Som.save (Som.new [1, 2] 1 (0 : ℚ) .expo
          (SchedTag.custom (fun v _ _ => v)) none npMin))).nbfunc
        = SchedTag.tag (Som.new [1, 2] 1 (0 : ℚ) .expo
          (SchedTag.custom (fun v _ _ => v)) none npMin).nbfunc
      ∧ (Som.load (Som.save (Som.new [1, 2] 1 (0 : ℚ) .expo
          (SchedTag.custom (fun v _ _ => v)) none npMin))).trained = true
      ∧ ((Som.new [1, 2] 1 (0 : ℚ) .expo (SchedTag.custom (fun v _ _ => v)) none
            npMin).min_max = npMin →
          (Som.load (Som.save (Som.new [1, 2] 1 (0 : ℚ) .expo
            (SchedTag.custom (fun v _ _ => v)) none npMin))).predict
              ⟨id, id⟩ [[(0 : ℚ)]] 1
            = (Som.new [1, 2] 1 (0 : ℚ) .expo (SchedTag.custom (fun v _ _ => v))
              none npMin).predict ⟨id, id⟩ [[(0 : ℚ)]] 1)) :=
  ⟨rfl, by decide, by decide,
    save_load_roundtrip (Som.new [1, 2] 1 (0 : ℚ) .expo
        (SchedTag.custom (fun v _ _ => v)) none npMin)
      ⟨id, id⟩ [[(0 : ℚ)]] 1 rfl (by decide) (by decide)⟩

/-- Counterexample for C9 as stated: the claim promises the round trip
preserves `predict` "for every trained model".  The spec allows plugging an
arg-max extremum selector into `min_max`, but `Som.load` (line 788) always
rebuilds the model with the default `np_min`; for a model trained with the
arg-max selector the loaded model predicts the arg-MIN unit instead.  The
run below completes `fit`, predicts unit 1 before the round trip and unit 0
after it. -/
theorem save_load_changes_predict_cex :
    (Som.fit (Som.new [1, 2] 1 (0 : ℚ) (SchedTag.custom (fun _ _ _ => 0))
        (SchedTag.custom (fun v _ _ => v)) none argMaxRow) ⟨id, id⟩
      (fun _ => ([], [])) (fun u _ => if u = 0 then (0 : ℚ) else 1 / 2)
      (fun _ x => x) [[(0 : ℚ)], [2]] 1 false 50 1 1 2 false).2 = Except.ok ()
    ∧ Som.predict (Som.fit (Som.new [1, 2] 1 (0 : ℚ)
        (SchedTag.custom (fun _ _ _ => 0))
        (SchedTag.custom (fun v _ _ => v)) none argMaxRow) ⟨id, id⟩
      (fun _ => ([], [])) (fun u _ => if u = 0 then (0 : ℚ) else 1 / 2)
      (fun _ x => x) [[(0 : ℚ)], [2]] 1 false 50 1 1 2 false).1
        ⟨id, id⟩ [[(1 : ℚ)]] 1 = Except.ok [1]
    ∧ Som.predict (Som.load (Som.save (Som.fit (Som.new [1, 2] 1 (0 : ℚ)
        (SchedTag.custom (fun _ _ _ => 0))
        (SchedTag.custom (fun v _ _ => v)) none argMaxRow) ⟨id, id⟩
      (fun _ => ([], [])) (fun u _ => if u = 0 then (0 : ℚ) else 1 / 2)
      (fun _ x => x) [[(0 : ℚ)], [2]] 1 false 50 1 1 2 false).1))
        ⟨id, id⟩ [[(1 : ℚ)]] 1 = Except.ok [0]
    ∧ Som.predict (Som.load (Som.save (Som.fit (Som.new [1, 2] 1 (0 : ℚ)
        (SchedTag.custom (fun _ _ _ => 0))
        (SchedTag.custom (fun v _ _ => v)) none argMaxRow) ⟨id, id⟩
      (fun _ => ([], [])) (fun u _ => if u = 0 then (0 : ℚ) else 1 / 2)
      (fun _ x => x) [[(0 : ℚ)], [2]] 1 false 50 1 1 2 false).1))
        ⟨id, id⟩ [[(1 : ℚ)]] 1
      ≠ Som.predict (Som.fit (Som.new [1, 2] 1 (0 : ℚ)
        (SchedTag.custom (fun _ _ _ => 0))
        (SchedTag.custom (fun v _ _ => v)) none argMaxRow) ⟨id, id⟩
      (fun _ => ([], [])) (fun u _ => if u = 0 then (0 : ℚ) else 1 / 2)
      (fun _ x => x) [[(0 : ℚ)], [2]] 1 false 50 1 1 2 false).1
        ⟨id, id⟩ [[(1 : ℚ)]] 1 := by
  have h9 := fit_eval_cex9
  have hA : Som.predict (Som.fit (Som.new [1, 2] 1 (0 : ℚ)
        (SchedTag.custom (fun _ _ _ => 0))
        (SchedTag.custom (fun v _ _ => v)) none argMaxRow) ⟨id, id⟩
      (fun _ => ([], [])) (fun u _ => if u = 0 then (0 : ℚ) else 1 / 2)
      (fun _ x => x) [[(0 : ℚ)], [2]] 1 false 50 1 1 2 false).1
        ⟨id, id⟩ [[(1 : ℚ)]] 1 = Except.ok [1] := by
    rw [h9]
    exact predict_trained_eval_cex9
  have hB : Som.predict (Som.load (Som.save (Som.fit (Som.new [1, 2] 1 (0 : ℚ)
        (SchedTag.custom (fun _ _ _ => 0))
        (SchedTag.custom (fun v _ _ => v)) none argMaxRow) ⟨id, id⟩
      (fun _ => ([], [])) (fun u _ => if u = 0 then (0 : ℚ) else 1 / 2)
      (fun _ x => x) [[(0 : ℚ)], [2]] 1 false 50 1 1 2 false).1))
        ⟨id, id⟩ [[(1 : ℚ)]] 1 = Except.ok [0] := by
    rw [h9]
    exact predict_loaded_eval_cex9
  refine ⟨by rw [h9], hA, hB, ?_⟩
  rw [hA, hB]
  simp

end Somber
